import Mathlib

/-!
Verification of the graph sanitization and layout engine
(`computeLayout` in `src/utils/layoutUtils.ts`).

The data model follows `types.ts`: nodes carry an id, a label, a shape and
optional computed fields (level, x, y); edges carry source, target and an
optional label.  JavaScript numbers used for coordinates are modelled by
rationals (all arithmetic performed by the source on these values is exact).
Stateful in-place mutation in the source is modelled by explicit state
passing; node object identity is modelled by the node's position in the
graph's node list.
-/

attribute [local semireducible] Rat.mul Rat.add Rat.sub Rat.inv Rat.ofScientific

/-- Node shapes, from `enum NodeShape` in `types.ts`. -/
inductive NodeShape where
  | rectangle
  | diamond
  | pill
  | parallelogram
deriving DecidableEq, BEq, Repr

/-- Layout directions, from `enum LayoutDirection` in `types.ts`. -/
inductive LayoutDirection where
  | topBottom
  | zigZag
deriving DecidableEq, Repr

/-- A flowchart node (`interface FlowchartNode`): id, label, shape, plus the
computed layout fields `x`, `y`, `level`, optional as in the source. -/
structure FlowchartNode where
  id : String
  label : String
  shape : NodeShape
  x : Option Rat := none
  y : Option Rat := none
  level : Option Nat := none
deriving DecidableEq, Repr

/-- A flowchart edge (`interface FlowchartEdge`): source and target node ids
and an optional label. -/
structure FlowchartEdge where
  source : String
  target : String
  label : Option String := none
deriving DecidableEq, Repr

/-- A flowchart graph (`interface FlowchartData`). -/
structure FlowchartData where
  nodes : List FlowchartNode
  edges : List FlowchartEdge
deriving DecidableEq, Repr

/-- Geometry constant `NODE_WIDTH = 220`. -/
def NODE_WIDTH : Rat := 220

/-- Geometry constant `NODE_HEIGHT = 140`. -/
def NODE_HEIGHT : Rat := 140

/-- Geometry constant `X_GAP = 60`. -/
def X_GAP : Rat := 60

/-- Geometry constant `Y_GAP = 100`. -/
def Y_GAP : Rat := 100

/-- Geometry constant `CANVAS_PADDING = 50`. -/
def CANVAS_PADDING : Rat := 50

/-- Grid width constant `SNAKE_COLUMNS = 4`. -/
def SNAKE_COLUMNS : Nat := 4

/-- Sanitization filter 1 (`layoutUtils.ts` line 18):
`edges.filter(e => nodeIds.has(e.source) && nodeIds.has(e.target))`. -/
def keepExisting (nodeIds : List String) (e : FlowchartEdge) : Bool :=
  nodeIds.contains e.source && nodeIds.contains e.target

/-- Sanitization filter 2 (`layoutUtils.ts` line 21):
`edges.filter(e => e.source !== e.target)`. -/
def keepNonLoop (e : FlowchartEdge) : Bool :=
  !(e.source == e.target)

/-- JavaScript `String.prototype.trim()`: remove whitespace from both ends of
the string (structural translation over the character list). -/
def jsTrim (s : String) : String :=
  String.mk
    (((s.data.dropWhile Char.isWhitespace).reverse.dropWhile
      Char.isWhitespace).reverse)

/-- Sanitization filter 3 (`layoutUtils.ts` lines 28-34): if the edge's source
is a diamond node, keep the edge only when `e.label && e.label.trim().length > 0`
is truthy (the label exists, is a non-empty string, and trims to a non-empty
string); otherwise keep the edge. -/
def keepDecisionLabeled (diamondIds : List String) (e : FlowchartEdge) : Bool :=
  if diamondIds.contains e.source then
    match e.label with
    | some s => !(s == "") && decide (0 < (jsTrim s).length)
    | none => false
  else true

/-- The sanitization step of `computeLayout` (`layoutUtils.ts` lines 15-38):
three successive edge filters; the node list is untouched. -/
def sanitize (data : FlowchartData) : FlowchartData :=
  let nodeIds := data.nodes.map (fun n => n.id)
  let edges1 := data.edges.filter (keepExisting nodeIds)
  let edges2 := edges1.filter keepNonLoop
  let diamondIds :=
    (data.nodes.filter (fun n => n.shape == NodeShape.diamond)).map (fun n => n.id)
  let edges3 := edges2.filter (keepDecisionLabeled diamondIds)
  { data with edges := edges3 }

/-- Shorthand for the edge list after sanitization. -/
def sanitizedEdges (data : FlowchartData) : List FlowchartEdge :=
  (sanitize data).edges

/-- Root inference (`layoutUtils.ts` lines 48-49):
`nodes.find(n => !targets.has(n.id))?.id || nodes[0].id`.  The JavaScript
`||` falls through to `nodes[0].id` when the found node's id is the empty
string (a falsy value), which the translation makes explicit.  The
`getD ""` default is unreachable in `computeLayout`, which guards against an
empty node list before reaching this point. -/
def inferRoot (nodes : List FlowchartNode) (edges : List FlowchartEdge) : String :=
  let targets := edges.map (fun e => e.target)
  let fallback := (nodes.head?.map (fun n => n.id)).getD ""
  match nodes.find? (fun n => !(targets.contains n.id)) with
  | some n => if n.id = "" then fallback else n.id
  | none => fallback

/-- State of the breadth-first traversal (`layoutUtils.ts` lines 51-82).
`levels` models the `level` fields of the node objects reachable through
`nodeMap` (all initialized to 0 before the traversal); `parents` is a ghost
field recording each discovering edge `(source id, target id)` at the moment
the target is enqueued. -/
structure BfsState where
  queue : List (String × Nat)
  visited : List String
  levels : String → Nat
  parents : List (String × String)

/-- The `outgoingEdges.forEach` body (`layoutUtils.ts` lines 64-71): for each
outgoing edge, if the target is unvisited, mark it visited and enqueue it one
level deeper (recording the discovering edge in the ghost `parents` field);
the `else` branch of the source is dead code and mutates nothing. -/
def enqueueTargets (id : String) (lvl : Nat) :
    List FlowchartEdge → BfsState → BfsState
  | [], s => s
  | e :: rest, s =>
    if s.visited.contains e.target then
      enqueueTargets id lvl rest s
    else
      enqueueTargets id lvl rest
        { s with
          queue := s.queue ++ [(e.target, lvl + 1)],
          visited := s.visited ++ [e.target],
          parents := s.parents ++ [(id, e.target)] }

/-- The level update of one BFS iteration (`layoutUtils.ts` line 60):
`node.level = Math.max(node.level || 0, level)` on the node object held in
`nodeMap` for `id`. -/
def updateLevel (levs : String → Nat) (id : String) (lvl : Nat) :
    String → Nat :=
  fun j => if j = id then Nat.max (levs id) lvl else levs j

/-- The BFS `while (queue.length > 0)` loop (`layoutUtils.ts` lines 55-82),
fuelled.  Each iteration dequeues one entry, sets the dequeued node's level to
`max(stored level, queue level)` when the id names a node (`if (node)`), and
enqueues the unvisited targets of its outgoing edges.  The fuel passed by
`bfsOf` always suffices to drain the queue (proved below). -/
def bfsRun (nodeIds : List String) (edges : List FlowchartEdge) :
    Nat → BfsState → BfsState
  | 0, s => s
  | fuel + 1, s =>
    match s.queue with
    | [] => s
    | (id, lvl) :: rest =>
      let levels' : String → Nat :=
        if nodeIds.contains id then updateLevel s.levels id lvl
        else s.levels
      let outgoing := edges.filter (fun e => e.source == id)
      bfsRun nodeIds edges fuel
        (enqueueTargets id lvl outgoing
          { queue := rest, visited := s.visited, levels := levels',
            parents := s.parents })

/-- The whole BFS pass of `computeLayout` on a graph whose edges have already
been sanitized: start from the inferred root with level 0 and the root already
visited.  A fuel of `edges.length + 1` bounds the number of iterations: every
enqueue after the initial one adds a fresh edge target to `visited`. -/
def bfsOf (data : FlowchartData) : BfsState :=
  let nodes := data.nodes
  let edges := sanitizedEdges data
  let nodeIds := nodes.map (fun n => n.id)
  let start := inferRoot nodes edges
  bfsRun nodeIds edges (edges.length + 1)
    { queue := [(start, 0)], visited := [start],
      levels := fun _ => 0, parents := [] }

/-- Write the traversal's levels back into the node list.  In the source the
initial `nodes.forEach` sets every node object's `level` to 0 and `nodeMap`
keeps, for each id, the last node object carrying it; the traversal then
mutates only those map-held objects.  Hence a node that is shadowed by a later
node with the same id keeps level 0, and the last occurrence of each id
receives the traversal's level.  With unique ids (the data model's invariant)
every node simply receives `levels id`. -/
def setLevels (levels : String → Nat) : List FlowchartNode → List FlowchartNode
  | [] => []
  | n :: rest =>
    (if rest.any (fun m => m.id == n.id) then
      { n with level := some 0 }
    else
      { n with level := some (levels n.id) }) :: setLevels levels rest

/-- Read a node's level with default 0, as the source's `node.level || 0`. -/
def getLevel (n : FlowchartNode) : Nat :=
  n.level.getD 0

/-- Strict lexicographic order on character lists, modelling the order that
`localeCompare` induces on node ids. -/
def charListLt : List Char → List Char → Bool
  | [], [] => false
  | [], _ :: _ => true
  | _ :: _, [] => false
  | a :: as, b :: bs => if a = b then charListLt as bs else decide (a < b)

/-- Strict order on ids: `a.localeCompare(b) < 0`, modelled as lexicographic
string order. -/
def idLt (a b : String) : Bool :=
  charListLt a.data b.data

/-- The sort comparator (`layoutUtils.ts` lines 85-90) as a strict order:
`a` comes strictly before `b` when its level is smaller, or levels are equal
and its id is smaller. -/
def nodeBefore (a b : FlowchartNode) : Bool :=
  decide (getLevel a < getLevel b) ||
    (getLevel a == getLevel b && idLt a.id b.id)

/-- Stable insertion of a position-tagged node into an already processed
list: the node goes after every earlier node it does not strictly precede. -/
def insertNode (x : FlowchartNode × Nat) :
    List (FlowchartNode × Nat) → List (FlowchartNode × Nat)
  | [] => [x]
  | y :: ys => if nodeBefore x.1 y.1 then x :: y :: ys else y :: insertNode x ys

/-- Stable sort of the position-tagged node list by `(level, id)`, modelling
`[...nodes].sort(...)` (JavaScript's sort is stable). -/
def sortNodes (l : List (FlowchartNode × Nat)) : List (FlowchartNode × Nat) :=
  l.foldl (fun acc x => insertNode x acc) []

/-- Tag each node with its position in the node list, starting at `p`;
positions model the identity of the mutable node objects. -/
def withPositions (p : Nat) : List FlowchartNode → List (FlowchartNode × Nat)
  | [] => []
  | n :: rest => (n, p) :: withPositions (p + 1) rest

/-- The leveled node list of `computeLayout` (original order). -/
def leveledNodes (data : FlowchartData) : List FlowchartNode :=
  setLevels (bfsOf data).levels data.nodes

/-- The `sortedNodes` sequence of `computeLayout` (`layoutUtils.ts`
lines 85-90), each node tagged with its position in the input list. -/
def sortedSeq (data : FlowchartData) : List (FlowchartNode × Nat) :=
  sortNodes (withPositions 0 (leveledNodes data))

/-- Snake row of grid index `i`: `Math.floor(index / SNAKE_COLUMNS)`. -/
def snakeRow (i : Nat) : Nat :=
  i / SNAKE_COLUMNS

/-- Snake column of grid index `i`: `index % SNAKE_COLUMNS`, reflected on odd
rows (`col = SNAKE_COLUMNS - 1 - col`). -/
def snakeCol (i : Nat) : Nat :=
  let c := i % SNAKE_COLUMNS
  if snakeRow i % 2 ≠ 0 then SNAKE_COLUMNS - 1 - c else c

/-- Snake x coordinate of grid index `i` (`layoutUtils.ts` line 107). -/
def snakeX (i : Nat) : Rat :=
  (snakeCol i : Rat) * (NODE_WIDTH + X_GAP) + CANVAS_PADDING + NODE_WIDTH / 2

/-- Snake y coordinate of grid index `i` (`layoutUtils.ts` line 108). -/
def snakeY (i : Nat) : Rat :=
  (snakeRow i : Rat) * (NODE_HEIGHT + Y_GAP) + CANVAS_PADDING + NODE_HEIGHT / 2

/-- Coordinate assignments of the snake strategy: the node of sorted index
`k + position in this list` is assigned the snake coordinates of that index;
each assignment is keyed by the node's position in the input node list. -/
def snakeCoords (k : Nat) :
    List (FlowchartNode × Nat) → List (Nat × Rat × Rat)
  | [] => []
  | (_, p) :: rest => (p, snakeX k, snakeY k) :: snakeCoords (k + 1) rest

/-- Insert a node into the per-level groups, modelling
`if (!levels.has(lvl)) levels.set(lvl, []); levels.get(lvl)!.push(node)`:
append to the group with this level if it exists, else add a new group at the
end (JavaScript `Map` iterates in key insertion order). -/
def addToGroups (gs : List (Nat × List (FlowchartNode × Nat)))
    (lvl : Nat) (n : FlowchartNode × Nat) :
    List (Nat × List (FlowchartNode × Nat)) :=
  match gs with
  | [] => [(lvl, [n])]
  | (l, ns) :: rest =>
    if l = lvl then (l, ns ++ [n]) :: rest else (l, ns) :: addToGroups rest lvl n

/-- Group the sorted nodes by level (`layoutUtils.ts` lines 113-121). -/
def groupByLevel (l : List (FlowchartNode × Nat)) :
    List (Nat × List (FlowchartNode × Nat)) :=
  l.foldl (fun gs x => addToGroups gs (getLevel x.1) x) []

/-- Maximum row width (`layoutUtils.ts` lines 124-127): the maximum over
groups of `count * (NODE_WIDTH + X_GAP)`, starting from 0. -/
def maxRowWidthOf (gs : List (Nat × List (FlowchartNode × Nat))) : Rat :=
  gs.foldl (fun m g => max m ((g.2.length : Rat) * (NODE_WIDTH + X_GAP))) 0

/-- Row width of a group of `count` nodes (`layoutUtils.ts` line 130):
`count * (NODE_WIDTH + X_GAP) - X_GAP`. -/
def rowWidth (count : Nat) : Rat :=
  (count : Rat) * (NODE_WIDTH + X_GAP) - X_GAP

/-- Coordinate assignments of one hierarchical row (`layoutUtils.ts`
lines 133-136): the `k`-th node of the group at `startX` and level `lvl`. -/
def rowCoords (lvl : Nat) (startX : Rat) :
    Nat → List (FlowchartNode × Nat) → List (Nat × Rat × Rat)
  | _, [] => []
  | k, (_, p) :: rest =>
    (p, startX + (k : Rat) * (NODE_WIDTH + X_GAP) + NODE_WIDTH / 2,
      (lvl : Rat) * (NODE_HEIGHT + Y_GAP) + CANVAS_PADDING + NODE_HEIGHT / 2) ::
      rowCoords lvl startX (k + 1) rest

/-- Coordinate assignments of the hierarchical strategy (`layoutUtils.ts`
lines 129-137): each group's row is centered within `maxW`. -/
def hierCoords (maxW : Rat) :
    List (Nat × List (FlowchartNode × Nat)) → List (Nat × Rat × Rat)
  | [] => []
  | (lvl, ns) :: rest =>
    rowCoords lvl ((maxW - rowWidth ns.length) / 2 + CANVAS_PADDING) 0 ns ++
      hierCoords maxW rest

/-- The coordinate assignments computed by `computeLayout` for a direction,
keyed by node position in the input list. -/
def layoutCoords (data : FlowchartData) (direction : LayoutDirection) :
    List (Nat × Rat × Rat) :=
  match direction with
  | LayoutDirection.zigZag => snakeCoords 0 (sortedSeq data)
  | LayoutDirection.topBottom =>
    let groups := groupByLevel (sortedSeq data)
    hierCoords (maxRowWidthOf groups) groups

/-- Write the coordinate assignments back into the node list; the node at
position `p` (counting from `p0`) receives the coordinates keyed by `p`.
Every position is covered (proved below), so the fallback that keeps the old
coordinates is never taken. -/
def applyCoordsAux (cs : List (Nat × Rat × Rat)) :
    Nat → List FlowchartNode → List FlowchartNode
  | _, [] => []
  | p, n :: rest =>
    (match cs.find? (fun c => c.1 == p) with
      | some c => { n with x := some c.2.1, y := some c.2.2 }
      | none => n) :: applyCoordsAux cs (p + 1) rest

/-- Write the coordinate assignments back, positions counted from 0. -/
def applyCoords (cs : List (Nat × Rat × Rat)) (l : List FlowchartNode) :
    List FlowchartNode :=
  applyCoordsAux cs 0 l

/-- The effect of the coordinate write-back on the single node at position
`p`: overwrite `x` and `y` when `p` has an assignment, else keep the node. -/
def applyAt (cs : List (Nat × Rat × Rat)) (p : Nat) (n : FlowchartNode) :
    FlowchartNode :=
  match cs.find? (fun c => c.1 == p) with
  | some c => { n with x := some c.2.1, y := some c.2.2 }
  | none => n

/-- The layout engine `computeLayout` (`layoutUtils.ts` lines 10-141): guard
against an empty node list, sanitize the edges, level the nodes by BFS from
the inferred root, sort by `(level, id)`, assign coordinates by the chosen
strategy and return the graph (nodes in input order, sanitized edges). -/
def computeLayout (data : FlowchartData) (direction : LayoutDirection) :
    FlowchartData :=
  if data.nodes.length = 0 then data
  else
    { nodes := applyCoords (layoutCoords data direction) (leveledNodes data),
      edges := sanitizedEdges data }

/-! Ghost and specification-side definitions used to state and prove the
claims.  These are not part of the embedded program. -/

/-- Reachability along directed edges from a start id. -/
inductive Reach (edges : List FlowchartEdge) (start : String) : String → Prop where
  | refl : Reach edges start start
  | step {u : String} {e : FlowchartEdge} :
      Reach edges start u → e ∈ edges → e.source = u → Reach edges start e.target

/-- Count of edge-target occurrences not yet visited; the decreasing part of
the BFS termination measure. -/
def tcount (targets : List String) (visited : List String) : Nat :=
  (targets.filter (fun t => decide (t ∉ visited))).length

/-- Termination measure of the BFS loop: queue length plus unvisited-target
count.  Each iteration strictly decreases it. -/
def bfsMeasure (edges : List FlowchartEdge) (s : BfsState) : Nat :=
  s.queue.length + tcount (edges.map (fun e => e.target)) s.visited

/-- Invariant of the BFS loop.  Queue ids are distinct; every queued id is
visited, still holds its initial level 0, names a node, and carries queue
level 0 when it is the start; every recorded discovering edge `(u, v)` has a
dequeued (hence level-stable) source and a target that is either still queued
at level `levels u + 1` or already dequeued with exactly that level; the
start is visited with level 0; unvisited ids hold level 0; every visited id
is reachable from the start. -/
def BfsInv (nodeIds : List String) (edges : List FlowchartEdge)
    (start : String) (s : BfsState) : Prop :=
  (s.queue.map Prod.fst).Nodup ∧
  (∀ q ∈ s.queue,
    q.1 ∈ s.visited ∧ s.levels q.1 = 0 ∧ q.1 ∈ nodeIds ∧ (q.1 = start → q.2 = 0)) ∧
  (∀ pr ∈ s.parents,
    pr.1 ∈ s.visited ∧ pr.1 ∉ s.queue.map Prod.fst ∧ pr.2 ∈ s.visited ∧
      ((pr.2, s.levels pr.1 + 1) ∈ s.queue ∨
        (s.levels pr.2 = s.levels pr.1 + 1 ∧ pr.2 ∉ s.queue.map Prod.fst))) ∧
  (start ∈ s.visited ∧ s.levels start = 0) ∧
  (∀ j, j ∉ s.visited → s.levels j = 0) ∧
  (∀ j ∈ s.visited, Reach edges start j)

/-- Concatenation of the per-level groups, in group order. -/
def groupsFlat : List (Nat × List (FlowchartNode × Nat)) →
    List (FlowchartNode × Nat)
  | [] => []
  | (_, ns) :: rest => ns ++ groupsFlat rest

/-- The identity-relevant fields of a node: id, label and shape — everything
`computeLayout` promises not to change. -/
def skeleton (n : FlowchartNode) : String × String × NodeShape :=
  (n.id, n.label, n.shape)

/-- Nodes agreeing on id, label and shape. -/
def SameSkel (a b : FlowchartNode) : Prop :=
  a.id = b.id ∧ a.label = b.label ∧ a.shape = b.shape

/-- Nodes agreeing on id, label, shape and level. -/
def SameSkelLevel (a b : FlowchartNode) : Prop :=
  a.id = b.id ∧ a.label = b.label ∧ a.shape = b.shape ∧ a.level = b.level

/-- Position-tagged nodes agreeing on id, label, shape, level and position. -/
def SameEntry (x y : FlowchartNode × Nat) : Prop :=
  SameSkelLevel x.1 y.1 ∧ x.2 = y.2

/-- Specification-side edge filter, written from the claim: keep an edge iff
(i) both endpoints name existing nodes, (ii) it is not a self-loop, and
(iii) if its source node's shape is decision (diamond), it carries a label
with positive whitespace-trimmed length. -/
def specKeepEdge (nodes : List FlowchartNode) (e : FlowchartEdge) : Bool :=
  (nodes.map (fun n => n.id)).contains e.source &&
  (nodes.map (fun n => n.id)).contains e.target &&
  !(e.source == e.target) &&
  (!(nodes.any (fun n => n.id == e.source && n.shape == NodeShape.diamond)) ||
    (match e.label with
     | some s => decide (0 < (jsTrim s).length)
     | none => false))

/-- Specification-side root search, written from the claim: the first node in
listing order that is not the target of any edge. -/
def specFirstUntargeted (nodes : List FlowchartNode)
    (edges : List FlowchartEdge) : Option FlowchartNode :=
  nodes.find? (fun n => decide (∀ e ∈ edges, ¬ e.target = n.id))

/-- A nine-node linear chain, used to instantiate the snake layout claims. -/
def chain9 : FlowchartData :=
  { nodes :=
      [{ id := "n0", label := "0", shape := NodeShape.rectangle },
       { id := "n1", label := "1", shape := NodeShape.rectangle },
       { id := "n2", label := "2", shape := NodeShape.rectangle },
       { id := "n3", label := "3", shape := NodeShape.rectangle },
       { id := "n4", label := "4", shape := NodeShape.rectangle },
       { id := "n5", label := "5", shape := NodeShape.rectangle },
       { id := "n6", label := "6", shape := NodeShape.rectangle },
       { id := "n7", label := "7", shape := NodeShape.rectangle },
       { id := "n8", label := "8", shape := NodeShape.rectangle }],
    edges :=
      [{ source := "n0", target := "n1" }, { source := "n1", target := "n2" },
       { source := "n2", target := "n3" }, { source := "n3", target := "n4" },
       { source := "n4", target := "n5" }, { source := "n5", target := "n6" },
       { source := "n6", target := "n7" }, { source := "n7", target := "n8" }] }

/-- A graph whose first never-targeted node has the empty string as id: the
JavaScript `||` fallback then overrides the documented root choice. -/
def exEmptyId : FlowchartData :=
  { nodes :=
      [{ id := "b", label := "B", shape := NodeShape.rectangle },
       { id := "", label := "E", shape := NodeShape.rectangle }],
    edges := [{ source := "", target := "b" }] }

/-- A graph where the only edge targeting node `b` is an unlabeled edge out
of the decision node `a`, so sanitization removes it and root inference (which
runs on sanitized edges) picks `b`; on the raw edges every node is targeted
and the fallback root would be `a`. -/
def exDroppedTarget : FlowchartData :=
  { nodes :=
      [{ id := "a", label := "A", shape := NodeShape.diamond },
       { id := "b", label := "B", shape := NodeShape.rectangle },
       { id := "c", label := "C", shape := NodeShape.rectangle }],
    edges :=
      [{ source := "a", target := "b" },
       { source := "b", target := "c" },
       { source := "c", target := "a" }] }

/-- A three-node graph with one discovering edge and one unreachable node. -/
def exPath : FlowchartData :=
  { nodes :=
      [{ id := "a", label := "A", shape := NodeShape.rectangle },
       { id := "b", label := "B", shape := NodeShape.rectangle },
       { id := "c", label := "C", shape := NodeShape.rectangle }],
    edges := [{ source := "a", target := "b" }] }

/-- A three-node tree: a root with two children on the same level. -/
def exFork : FlowchartData :=
  { nodes :=
      [{ id := "a", label := "A", shape := NodeShape.rectangle },
       { id := "b", label := "B", shape := NodeShape.rectangle },
       { id := "c", label := "C", shape := NodeShape.rectangle }],
    edges :=
      [{ source := "a", target := "b" }, { source := "a", target := "c" }] }

/-- A graph with several malformed edges, used to instantiate the
sanitization claims: a dangling edge, a self-loop, and an unlabeled edge out
of a decision node. -/
def exMessy : FlowchartData :=
  { nodes :=
      [{ id := "s", label := "S", shape := NodeShape.pill },
       { id := "d", label := "D?", shape := NodeShape.diamond },
       { id := "t", label := "T", shape := NodeShape.rectangle }],
    edges :=
      [{ source := "s", target := "d" },
       { source := "s", target := "node99" },
       { source := "t", target := "t" },
       { source := "d", target := "t" },
       { source := "d", target := "s", label := some "No" }] }

/-- The empty graph, with a leftover edge, used for the empty-graph guard. -/
def exEmpty : FlowchartData :=
  { nodes := [],
    edges := [{ source := "x", target := "y" }] }

/-! Helper lemmas. -/

lemma contains_iff {α : Type} [BEq α] [LawfulBEq α] {l : List α} {a : α} :
    l.contains a = true ↔ a ∈ l :=
  List.elem_iff

lemma contains_eq_false_iff {α : Type} [BEq α] [LawfulBEq α] {l : List α}
    {a : α} : l.contains a = false ↔ a ∉ l := by
  rw [← Bool.not_eq_true, not_congr contains_iff]

lemma FlowchartNode.ext' {a b : FlowchartNode} (h1 : a.id = b.id)
    (h2 : a.label = b.label) (h3 : a.shape = b.shape) (h4 : a.x = b.x)
    (h5 : a.y = b.y) (h6 : a.level = b.level) : a = b := by
  cases a; cases b; simp_all

lemma filter_fuse {α : Type} (p q : α → Bool) (l : List α) :
    (l.filter p).filter q = l.filter (fun a => p a && q a) := by
  induction l with
  | nil => rfl
  | cons a t ih =>
    by_cases hp : p a <;> by_cases hq : q a <;>
      simp [List.filter_cons, hp, hq, ih]

lemma find?_congr_pred {α : Type} {p q : α → Bool} (l : List α)
    (h : ∀ a ∈ l, p a = q a) : l.find? p = l.find? q := by
  induction l with
  | nil => rfl
  | cons a t ih =>
    have ha := h a (List.mem_cons_self a t)
    by_cases hp : p a
    · rw [List.find?_cons_of_pos _ hp, List.find?_cons_of_pos _ (ha ▸ hp)]
    · rw [List.find?_cons_of_neg _ hp,
        List.find?_cons_of_neg _ (ha ▸ hp),
        ih fun b hb => h b (List.mem_cons_of_mem a hb)]

/-! Sanitization lemmas. -/

lemma sanitize_nodes (g : FlowchartData) : (sanitize g).nodes = g.nodes :=
  rfl

lemma sanitizedEdges_eq_filter (g : FlowchartData) :
    sanitizedEdges g = g.edges.filter (fun e =>
      keepExisting (g.nodes.map (fun n => n.id)) e && keepNonLoop e &&
        keepDecisionLabeled
          ((g.nodes.filter (fun n => n.shape == NodeShape.diamond)).map
            (fun n => n.id)) e) := by
  show ((g.edges.filter _).filter _).filter _ = _
  rw [filter_fuse, filter_fuse]
  exact List.filter_congr fun e _ => by rw [Bool.and_assoc]

lemma mem_sanitizedEdges_keep {g : FlowchartData} {e : FlowchartEdge}
    (h : e ∈ sanitizedEdges g) :
    keepExisting (g.nodes.map (fun n => n.id)) e = true ∧
      keepNonLoop e = true ∧
      keepDecisionLabeled
        ((g.nodes.filter (fun n => n.shape == NodeShape.diamond)).map
          (fun n => n.id)) e = true := by
  rw [sanitizedEdges_eq_filter] at h
  have := List.of_mem_filter h
  simp only [Bool.and_eq_true] at this
  exact ⟨this.1.1, this.1.2, this.2⟩

lemma mem_sanitizedEdges_sub {g : FlowchartData} {e : FlowchartEdge}
    (h : e ∈ sanitizedEdges g) : e ∈ g.edges := by
  rw [sanitizedEdges_eq_filter] at h
  exact List.mem_of_mem_filter h

lemma sanitizedEdges_target_mem {g : FlowchartData} {e : FlowchartEdge}
    (h : e ∈ sanitizedEdges g) : e.target ∈ g.nodes.map (fun n => n.id) := by
  have hk := (mem_sanitizedEdges_keep h).1
  unfold keepExisting at hk
  rw [Bool.and_eq_true] at hk
  exact contains_iff.mp hk.2

lemma sanitizedEdges_source_mem {g : FlowchartData} {e : FlowchartEdge}
    (h : e ∈ sanitizedEdges g) : e.source ∈ g.nodes.map (fun n => n.id) := by
  have hk := (mem_sanitizedEdges_keep h).1
  unfold keepExisting at hk
  rw [Bool.and_eq_true] at hk
  exact contains_iff.mp hk.1

lemma sanitize_sanitize (g : FlowchartData) :
    sanitize (sanitize g) = sanitize g := by
  have hs : ∀ e ∈ (sanitize g).edges,
      keepExisting ((sanitize g).nodes.map (fun n => n.id)) e = true ∧
        keepNonLoop e = true ∧
        keepDecisionLabeled
          (((sanitize g).nodes.filter (fun n => n.shape == NodeShape.diamond)).map
            (fun n => n.id)) e = true :=
    fun e he => mem_sanitizedEdges_keep (g := g) he
  show ({ sanitize g with edges := _ } : FlowchartData) = sanitize g
  rw [List.filter_eq_self.mpr fun e he => (hs e he).1,
    List.filter_eq_self.mpr fun e he => (hs e he).2.1,
    List.filter_eq_self.mpr fun e he => (hs e he).2.2]

lemma computeLayout_of_ne {g : FlowchartData} (d : LayoutDirection)
    (h : g.nodes ≠ []) :
    computeLayout g d =
      { nodes := applyCoords (layoutCoords g d) (leveledNodes g),
        edges := sanitizedEdges g } := by
  unfold computeLayout
  rw [if_neg (fun hl => h (List.length_eq_zero.mp hl))]

lemma computeLayout_empty {g : FlowchartData} (d : LayoutDirection)
    (h : g.nodes = []) : computeLayout g d = g := by
  unfold computeLayout
  rw [if_pos (by rw [h]; rfl)]

/-- Pointwise agreement of the code's three sanitization filters with the
claim's three-part characterization. -/
lemma keep_eq_specKeep (nodes : List FlowchartNode) (e : FlowchartEdge) :
    (keepExisting (nodes.map (fun n => n.id)) e && keepNonLoop e &&
      keepDecisionLabeled
        ((nodes.filter (fun n => n.shape == NodeShape.diamond)).map
          (fun n => n.id)) e) = specKeepEdge nodes e := by
  have hdia :
      ((nodes.filter (fun n => n.shape == NodeShape.diamond)).map
        (fun n => n.id)).contains e.source =
        nodes.any (fun n => n.id == e.source && n.shape == NodeShape.diamond) := by
    by_cases hc :
        ((nodes.filter (fun n => n.shape == NodeShape.diamond)).map
          (fun n => n.id)).contains e.source
    · rw [hc]
      obtain ⟨n, hn, hid⟩ := List.mem_map.mp (contains_iff.mp hc)
      obtain ⟨hnn, hshape⟩ := List.mem_filter.mp hn
      exact (List.any_eq_true.mpr
        ⟨n, hnn, by rw [Bool.and_eq_true, beq_iff_eq, hid, hshape]; exact ⟨rfl, rfl⟩⟩).symm
    · rw [Bool.eq_false_iff.mpr hc]
      symm
      rw [← Bool.not_eq_true, List.any_eq_true]
      rintro ⟨n, hn, hb⟩
      rw [Bool.and_eq_true, beq_iff_eq] at hb
      exact hc (contains_iff.mpr (List.mem_map.mpr
        ⟨n, List.mem_filter.mpr ⟨hn, hb.2⟩, hb.1⟩))
  unfold specKeepEdge keepExisting keepNonLoop keepDecisionLabeled
  rw [← hdia]
  cases hc :
      ((nodes.filter (fun n => n.shape == NodeShape.diamond)).map
        (fun n => n.id)).contains e.source with
  | false => simp
  | true =>
    cases e.label with
    | none => simp
    | some s =>
      by_cases hs : s = ""
      · subst hs
        have h0 : decide (0 < (jsTrim "").length) = false := by decide
        simp [h0]
      · have hbe : (s == "") = false := beq_eq_false_iff_ne.mpr hs
        simp [hbe]

/-! Root inference lemmas. -/

lemma inferRoot_mem {nodes : List FlowchartNode} (edges : List FlowchartEdge)
    (h : nodes ≠ []) : inferRoot nodes edges ∈ nodes.map (fun n => n.id) := by
  have hhead : (nodes.head?.map (fun n => n.id)).getD "" ∈
      nodes.map (fun n => n.id) := by
    cases nodes with
    | nil => exact absurd rfl h
    | cons a t => exact List.mem_cons_self _ _
  unfold inferRoot
  dsimp only
  cases hf : nodes.find?
      (fun n => !((edges.map (fun e => e.target)).contains n.id)) with
  | none => exact hhead
  | some n =>
    dsimp only
    by_cases hid : n.id = ""
    · rw [if_pos hid]
      exact hhead
    · rw [if_neg hid]
      exact List.mem_map.mpr ⟨n, List.mem_of_find?_eq_some hf, rfl⟩

/-! Termination measure lemmas for the BFS loop. -/

lemma filter_length_mono {α : Type} {p q : α → Bool}
    (h : ∀ a, p a = true → q a = true) (l : List α) :
    (l.filter p).length ≤ (l.filter q).length := by
  induction l with
  | nil => exact Nat.le_refl 0
  | cons a t ih =>
    by_cases hp : p a
    · rw [List.filter_cons_of_pos hp, List.filter_cons_of_pos (h a hp)]
      exact Nat.succ_le_succ ih
    · rw [List.filter_cons_of_neg hp]
      by_cases hq : q a
      · rw [List.filter_cons_of_pos hq]
        exact Nat.le_succ_of_le ih
      · rw [List.filter_cons_of_neg hq]
        exact ih

lemma tcount_le (T v : List String) : tcount T v ≤ T.length :=
  List.length_filter_le _ _

lemma tcount_append_le (T v : List String) (t : String) :
    tcount T (v ++ [t]) ≤ tcount T v := by
  refine filter_length_mono (fun a ha => ?_) T
  rw [decide_eq_true_eq] at ha ⊢
  exact fun hv => ha (List.mem_append.mpr (Or.inl hv))

lemma tcount_insert {T v : List String} {t : String} (hT : t ∈ T)
    (hv : t ∉ v) : tcount T (v ++ [t]) + 1 ≤ tcount T v := by
  induction T with
  | nil => cases hT
  | cons a T ih =>
    by_cases hat : a = t
    · subst hat
      have h1 : tcount (a :: T) (v ++ [a]) = tcount T (v ++ [a]) := by
        unfold tcount
        rw [List.filter_cons_of_neg (by simp)]
      have h2 : tcount (a :: T) v = tcount T v + 1 := by
        unfold tcount
        rw [List.filter_cons_of_pos (by simpa using hv)]
        rfl
      have h3 := tcount_append_le T v a
      omega
    · have hT' : t ∈ T := by
        cases hT with
        | head => exact absurd rfl hat
        | tail _ h => exact h
      by_cases hav : a ∈ v
      · have h1 : tcount (a :: T) (v ++ [t]) = tcount T (v ++ [t]) := by
          unfold tcount
          rw [List.filter_cons_of_neg (by simp [List.mem_append, hav])]
        have h2 : tcount (a :: T) v = tcount T v := by
          unfold tcount
          rw [List.filter_cons_of_neg (by simp [hav])]
        have := ih hT'
        omega
      · have h1 : tcount (a :: T) (v ++ [t]) = tcount T (v ++ [t]) + 1 := by
          unfold tcount
          rw [List.filter_cons_of_pos (by simp [List.mem_append, hav, hat])]
          rfl
        have h2 : tcount (a :: T) v = tcount T v + 1 := by
          unfold tcount
          rw [List.filter_cons_of_pos (by simpa using hav)]
          rfl
        have := ih hT'
        omega

/-! Lemmas about the enqueue phase of one BFS iteration. -/

lemma enqueueTargets_levels (id : String) (lvl : Nat)
    (out : List FlowchartEdge) :
    ∀ s : BfsState, (enqueueTargets id lvl out s).levels = s.levels := by
  induction out with
  | nil => intro s; rfl
  | cons e rest ih =>
    intro s
    unfold enqueueTargets
    by_cases h : s.visited.contains e.target
    · rw [if_pos h]
      exact ih _
    · rw [if_neg h]
      exact ih _

lemma enqueueTargets_visited_sub (id : String) (lvl : Nat)
    (out : List FlowchartEdge) :
    ∀ (s : BfsState) (x : String), x ∈ s.visited →
      x ∈ (enqueueTargets id lvl out s).visited := by
  induction out with
  | nil => intro s x hx; exact hx
  | cons e rest ih =>
    intro s x hx
    unfold enqueueTargets
    by_cases h : s.visited.contains e.target
    · rw [if_pos h]
      exact ih _ _ hx
    · rw [if_neg h]
      exact ih _ _ (List.mem_append.mpr (Or.inl hx))

lemma enqueueTargets_measure (edges : List FlowchartEdge) (id : String)
    (lvl : Nat) (out : List FlowchartEdge)
    (hout : ∀ e ∈ out, e.target ∈ edges.map (fun e => e.target)) :
    ∀ s : BfsState,
      bfsMeasure edges (enqueueTargets id lvl out s) ≤ bfsMeasure edges s := by
  induction out with
  | nil => intro s; exact Nat.le_refl _
  | cons e rest ih =>
    intro s
    have hrest : ∀ e' ∈ rest, e'.target ∈ edges.map (fun e => e.target) :=
      fun e' he' => hout e' (List.mem_cons_of_mem e he')
    unfold enqueueTargets
    by_cases h : s.visited.contains e.target
    · rw [if_pos h]
      exact ih hrest _
    · rw [if_neg h]
      refine Nat.le_trans (ih hrest _) ?_
      unfold bfsMeasure
      dsimp only
      have ht := tcount_insert (hout e (List.mem_cons_self e rest))
        (fun hm => h (contains_iff.mpr hm))
      rw [List.length_append]
      have h1 : ([(e.target, lvl + 1)] : List (String × Nat)).length = 1 := rfl
      omega


/-! Invariant preservation through the BFS loop. -/

lemma enqueueTargets_inv (nodeIds : List String) (edges : List FlowchartEdge)
    (start : String) (id : String) (lvl : Nat)
    (htgt : ∀ e ∈ edges, e.target ∈ nodeIds) :
    ∀ (out : List FlowchartEdge) (s : BfsState),
      (∀ e ∈ out, e ∈ edges ∧ e.source = id) →
      BfsInv nodeIds edges start s →
      id ∈ s.visited → id ∉ s.queue.map Prod.fst → s.levels id = lvl →
      BfsInv nodeIds edges start (enqueueTargets id lvl out s) := by
  intro out
  induction out with
  | nil =>
    intro s _ H _ _ _
    exact H
  | cons e rest ih =>
    intro s hout H hidv hidq hidl
    have hrest : ∀ e' ∈ rest, e' ∈ edges ∧ e'.source = id :=
      fun e' he' => hout e' (List.mem_cons_of_mem e he')
    have he : e ∈ edges ∧ e.source = id := hout e (List.mem_cons_self e rest)
    unfold enqueueTargets
    by_cases h : s.visited.contains e.target
    · rw [if_pos h]
      exact ih _ hrest H hidv hidq hidl
    · rw [if_neg h]
      have htnv : e.target ∉ s.visited := fun hm => h (contains_iff.mpr hm)
      obtain ⟨H1, H2, H3, H4, H5, H6⟩ := H
      have hqv : ∀ x ∈ s.queue.map Prod.fst, x ∈ s.visited := by
        intro x hx
        obtain ⟨q, hq, hqx⟩ := List.mem_map.mp hx
        exact hqx ▸ (H2 q hq).1
      have hmapq : (s.queue ++ [(e.target, lvl + 1)]).map Prod.fst =
          s.queue.map Prod.fst ++ [e.target] := by
        rw [List.map_append]
        rfl
      have hnewq : ∀ x, x ∈ (s.queue ++ [(e.target, lvl + 1)]).map Prod.fst →
          x ∈ s.queue.map Prod.fst ∨ x = e.target := by
        intro x hx
        rw [hmapq] at hx
        rcases List.mem_append.mp hx with h1 | h1
        · exact Or.inl h1
        · exact Or.inr (List.mem_singleton.mp h1)
      refine ih _ hrest ⟨?_, ?_, ?_, ?_, ?_, ?_⟩
        (List.mem_append.mpr (Or.inl hidv)) ?_ hidl
      · -- queue ids stay distinct
        rw [hmapq, List.nodup_append]
        refine ⟨H1, List.nodup_singleton _, ?_⟩
        intro x hx hx'
        exact htnv ((List.mem_singleton.mp hx') ▸ hqv x hx)
      · -- queued entries: visited, level 0, node id, start at level 0
        intro q hq
        rcases List.mem_append.mp hq with h1 | h1
        · obtain ⟨hv, hl, hn, hst⟩ := H2 q h1
          exact ⟨List.mem_append.mpr (Or.inl hv), hl, hn, hst⟩
        · rw [List.mem_singleton.mp h1]
          refine ⟨List.mem_append.mpr (Or.inr (List.mem_singleton.mpr rfl)),
            H5 _ htnv, htgt e he.1, ?_⟩
          intro hts
          refine absurd ?_ htnv
          rw [show e.target = start from hts]
          exact H4.1
      · -- recorded discovering edges
        intro pr hpr
        rcases List.mem_append.mp hpr with h1 | h1
        · obtain ⟨h1v, h1q, h2v, hdisj⟩ := H3 pr h1
          refine ⟨List.mem_append.mpr (Or.inl h1v), ?_,
            List.mem_append.mpr (Or.inl h2v), ?_⟩
          · intro hx
            rcases hnewq _ hx with h2 | h2
            · exact h1q h2
            · exact htnv (h2 ▸ h1v)
          · rcases hdisj with h2 | h2
            · exact Or.inl (List.mem_append.mpr (Or.inl h2))
            · refine Or.inr ⟨h2.1, ?_⟩
              intro hx
              rcases hnewq _ hx with h3 | h3
              · exact h2.2 h3
              · exact htnv (h3 ▸ h2v)
        · rw [List.mem_singleton.mp h1]
          refine ⟨List.mem_append.mpr (Or.inl hidv), ?_,
            List.mem_append.mpr (Or.inr (List.mem_singleton.mpr rfl)), ?_⟩
          · intro hx
            rcases hnewq _ hx with h2 | h2
            · exact hidq h2
            · exact htnv (h2 ▸ hidv)
          · rw [hidl]
            exact Or.inl (List.mem_append.mpr
              (Or.inr (List.mem_singleton.mpr rfl)))
      · exact ⟨List.mem_append.mpr (Or.inl H4.1), H4.2⟩
      · intro j hj
        exact H5 j fun hm => hj (List.mem_append.mpr (Or.inl hm))
      · intro j hj
        rcases List.mem_append.mp hj with h1 | h1
        · exact H6 j h1
        · rw [List.mem_singleton.mp h1]
          exact Reach.step (H6 id hidv) he.1 he.2
      · intro hx
        rcases hnewq _ hx with h2 | h2
        · exact hidq h2
        · exact htnv (h2 ▸ hidv)

lemma updateLevel_ne (levs : String → Nat) (id : String) (lvl : Nat)
    {j : String} (hj : j ≠ id) : updateLevel levs id lvl j = levs j := by
  unfold updateLevel
  rw [if_neg hj]

lemma updateLevel_self (levs : String → Nat) (id : String) (lvl : Nat)
    (h0 : levs id = 0) : updateLevel levs id lvl id = lvl := by
  unfold updateLevel
  rw [if_pos rfl, h0]
  exact Nat.max_eq_right (Nat.zero_le _)

lemma bfs_dequeue_inv (nodeIds : List String) (edges : List FlowchartEdge)
    (start : String) (id : String) (lvl : Nat) (rest : List (String × Nat))
    (vis : List String) (levs : String → Nat) (pars : List (String × String))
    (H : BfsInv nodeIds edges start ⟨(id, lvl) :: rest, vis, levs, pars⟩) :
    BfsInv nodeIds edges start
      ⟨rest, vis, updateLevel levs id lvl, pars⟩ ∧
      id ∈ vis ∧ id ∉ rest.map Prod.fst ∧ id ∈ nodeIds ∧
      updateLevel levs id lvl id = lvl := by
  obtain ⟨H1, H2, H3, H4, H5, H6⟩ := H
  dsimp only at H1 H2 H3 H4 H5 H6
  obtain ⟨hidv, hid0, hidn, hidst⟩ :=
    H2 (id, lvl) (List.mem_cons_self _ _)
  dsimp only at hidv hid0 hidn hidst
  have hnd : id ∉ rest.map Prod.fst ∧ (rest.map Prod.fst).Nodup := by
    rw [List.map_cons] at H1
    exact ⟨(List.nodup_cons.mp H1).1, (List.nodup_cons.mp H1).2⟩
  have hUid : updateLevel levs id lvl id = lvl := updateLevel_self levs id lvl hid0
  have hUne : ∀ j, j ≠ id → updateLevel levs id lvl j = levs j :=
    fun j hj => updateLevel_ne levs id lvl hj
  unfold BfsInv
  dsimp only
  refine ⟨⟨hnd.2, ?_, ?_, ?_, ?_, H6⟩, hidv, hnd.1, hidn, hUid⟩
  · -- remaining queue entries
    intro q hq
    have hqne : q.1 ≠ id := by
      intro hx
      exact hnd.1 (hx ▸ List.mem_map.mpr ⟨q, hq, rfl⟩)
    obtain ⟨hv, hl, hn, hst⟩ := H2 q (List.mem_cons_of_mem _ hq)
    exact ⟨hv, (hUne q.1 hqne).trans hl, hn, hst⟩
  · -- recorded discovering edges
    intro pr hpr
    obtain ⟨h1v, h1q, h2v, hdisj⟩ := H3 pr hpr
    rw [List.map_cons] at h1q
    have h1ne : pr.1 ≠ id := fun hx => h1q (hx ▸ List.mem_cons_self _ _)
    have h1nr : pr.1 ∉ rest.map Prod.fst :=
      fun hx => h1q (List.mem_cons_of_mem _ hx)
    refine ⟨h1v, h1nr, h2v, ?_⟩
    rw [hUne pr.1 h1ne]
    rcases hdisj with h2 | h2
    · rcases List.mem_cons.mp h2 with h3 | h3
      · -- the dequeued entry is the queued discovery of pr.2
        have h2id : pr.2 = id := congrArg Prod.fst h3
        have hlv : levs pr.1 + 1 = lvl := congrArg Prod.snd h3
        refine Or.inr ⟨?_, h2id ▸ hnd.1⟩
        rw [h2id, hUid, ← hlv]
      · exact Or.inl h3
    · have h2ne : pr.2 ≠ id := fun hx => h2.2 (hx ▸ List.mem_cons_self _ _)
      refine Or.inr ⟨?_, fun hx => h2.2 (List.mem_cons_of_mem _ hx)⟩
      rw [hUne pr.2 h2ne, h2.1]
  · -- start keeps level 0
    refine ⟨H4.1, ?_⟩
    by_cases hs : start = id
    · rw [hs, hUid]
      exact hidst hs.symm
    · rw [hUne start hs, H4.2]
  · -- unvisited ids keep level 0
    intro j hj
    have hjne : j ≠ id := fun hx => hj (hx ▸ hidv)
    rw [hUne j hjne]
    exact H5 j hj

lemma bfsRun_inv (nodeIds : List String) (edges : List FlowchartEdge)
    (start : String) (htgt : ∀ e ∈ edges, e.target ∈ nodeIds) :
    ∀ (fuel : Nat) (s : BfsState),
      BfsInv nodeIds edges start s →
      bfsMeasure edges s ≤ fuel →
      BfsInv nodeIds edges start (bfsRun nodeIds edges fuel s) ∧
        (bfsRun nodeIds edges fuel s).queue = [] := by
  intro fuel
  induction fuel with
  | zero =>
    intro s H hm
    have h0 : s.queue.length = 0 := by
      unfold bfsMeasure at hm
      omega
    exact ⟨H, List.length_eq_zero.mp h0⟩
  | succ fuel ih =>
    rintro ⟨q, vis, levs, pars⟩ H hm
    cases q with
    | nil => exact ⟨H, rfl⟩
    | cons hd rest =>
      obtain ⟨id, lvl⟩ := hd
      obtain ⟨Hmid, hidv, hidq, hidn, hUid⟩ :=
        bfs_dequeue_inv nodeIds edges start id lvl rest vis levs pars H
      have hcont : nodeIds.contains id = true := contains_iff.mpr hidn
      have hout : ∀ e ∈ edges.filter (fun e => e.source == id),
          e ∈ edges ∧ e.source = id := by
        intro e hme
        have hb := List.of_mem_filter
          (p := fun (e : FlowchartEdge) => e.source == id) hme
        exact ⟨List.mem_of_mem_filter hme, beq_iff_eq.mp hb⟩
      have houtt : ∀ e ∈ edges.filter (fun e => e.source == id),
          e.target ∈ edges.map (fun e => e.target) :=
        fun e hme => List.mem_map.mpr ⟨e, List.mem_of_mem_filter hme, rfl⟩
      have hstep : bfsRun nodeIds edges (fuel + 1)
          ⟨(id, lvl) :: rest, vis, levs, pars⟩ =
          bfsRun nodeIds edges fuel
            (enqueueTargets id lvl (edges.filter (fun e => e.source == id))
              ⟨rest, vis, updateLevel levs id lvl, pars⟩) := by
        show bfsRun nodeIds edges fuel _ = _
        rw [if_pos hcont]
      rw [hstep]
      have Hmid2 := enqueueTargets_inv nodeIds edges start id lvl htgt
        (edges.filter (fun e => e.source == id)) _ hout Hmid hidv hidq hUid
      have hmmid : bfsMeasure edges
          (⟨rest, vis, updateLevel levs id lvl, pars⟩ : BfsState) ≤ fuel := by
        unfold bfsMeasure at hm ⊢
        dsimp only at hm ⊢
        rw [List.length_cons] at hm
        omega
      exact ih _ Hmid2
        (Nat.le_trans
          (enqueueTargets_measure edges id lvl _ houtt _) hmmid)

/-! Consequences of the invariant for the BFS pass of `computeLayout`. -/

lemma bfsOf_spec (g : FlowchartData) (h : g.nodes ≠ []) :
    BfsInv (g.nodes.map (fun n => n.id)) (sanitizedEdges g)
      (inferRoot g.nodes (sanitizedEdges g)) (bfsOf g) ∧
      (bfsOf g).queue = [] := by
  have hstart := inferRoot_mem (sanitizedEdges g) h
  have htgt : ∀ e ∈ sanitizedEdges g,
      e.target ∈ g.nodes.map (fun n => n.id) :=
    fun e he => sanitizedEdges_target_mem he
  have Hinit : BfsInv (g.nodes.map (fun n => n.id)) (sanitizedEdges g)
      (inferRoot g.nodes (sanitizedEdges g))
      ⟨[(inferRoot g.nodes (sanitizedEdges g), 0)],
        [inferRoot g.nodes (sanitizedEdges g)], fun _ => 0, []⟩ := by
    refine ⟨List.nodup_singleton _, ?_, ?_, ?_, ?_, ?_⟩
    · intro q hq
      rw [List.mem_singleton.mp hq]
      exact ⟨List.mem_singleton.mpr rfl, rfl, hstart, fun _ => rfl⟩
    · intro pr hpr
      cases hpr
    · exact ⟨List.mem_singleton.mpr rfl, rfl⟩
    · intro j _
      rfl
    · intro j hj
      rw [List.mem_singleton.mp hj]
      exact Reach.refl
  have hminit : bfsMeasure (sanitizedEdges g)
      ⟨[(inferRoot g.nodes (sanitizedEdges g), 0)],
        [inferRoot g.nodes (sanitizedEdges g)], fun _ => 0, []⟩ ≤
      (sanitizedEdges g).length + 1 := by
    unfold bfsMeasure
    dsimp only
    have h1 := tcount_le ((sanitizedEdges g).map (fun e => e.target))
      [inferRoot g.nodes (sanitizedEdges g)]
    rw [List.length_map] at h1
    have h2 : ([(inferRoot g.nodes (sanitizedEdges g), 0)] :
        List (String × Nat)).length = 1 := rfl
    omega
  exact bfsRun_inv (g.nodes.map (fun n => n.id)) (sanitizedEdges g)
    (inferRoot g.nodes (sanitizedEdges g)) htgt
    ((sanitizedEdges g).length + 1) _ Hinit hminit

lemma bfsOf_parents_levels {g : FlowchartData} (h : g.nodes ≠ []) :
    ∀ pr ∈ (bfsOf g).parents,
      (bfsOf g).levels pr.2 = (bfsOf g).levels pr.1 + 1 := by
  obtain ⟨⟨H1, H2, H3, H4, H5, H6⟩, hq⟩ := bfsOf_spec g h
  intro pr hpr
  obtain ⟨_, _, _, hdisj⟩ := H3 pr hpr
  rcases hdisj with h1 | h1
  · rw [hq] at h1
    cases h1
  · exact h1.1

lemma bfsOf_root_level {g : FlowchartData} (h : g.nodes ≠ []) :
    (bfsOf g).levels (inferRoot g.nodes (sanitizedEdges g)) = 0 :=
  (bfsOf_spec g h).1.2.2.2.1.2

lemma bfsOf_unreachable_level {g : FlowchartData} (h : g.nodes ≠ [])
    {j : String}
    (hr : ¬ Reach (sanitizedEdges g) (inferRoot g.nodes (sanitizedEdges g)) j) :
    (bfsOf g).levels j = 0 := by
  obtain ⟨⟨H1, H2, H3, H4, H5, H6⟩, hq⟩ := bfsOf_spec g h
  exact H5 j (fun hv => hr (H6 j hv))

/-! Lemmas about writing levels back into the node list. -/

lemma setLevels_length (f : String → Nat) :
    ∀ l : List FlowchartNode, (setLevels f l).length = l.length := by
  intro l
  induction l with
  | nil => rfl
  | cons n rest ih =>
    unfold setLevels
    rw [List.length_cons, List.length_cons, ih]

lemma setLevels_eq_of_nodup (f : String → Nat) :
    ∀ l : List FlowchartNode, (l.map (fun n => n.id)).Nodup →
      setLevels f l = l.map (fun n => { n with level := some (f n.id) }) := by
  intro l
  induction l with
  | nil => intro _; rfl
  | cons n rest ih =>
    intro h
    rw [List.map_cons, List.nodup_cons] at h
    have hany : rest.any (fun m => m.id == n.id) = false := by
      rw [List.any_eq_false]
      intro m hm hb
      exact h.1 (beq_iff_eq.mp hb ▸ List.mem_map.mpr ⟨m, hm, rfl⟩)
    unfold setLevels
    rw [if_neg (by rw [hany]; exact Bool.false_ne_true), List.map_cons,
      ih h.2]

lemma mem_setLevels (f : String → Nat) :
    ∀ (l : List FlowchartNode) (b : FlowchartNode), b ∈ setLevels f l →
      ∃ a ∈ l, b.id = a.id ∧ b.label = a.label ∧ b.shape = a.shape ∧
        (b.level = some 0 ∨ b.level = some (f a.id)) := by
  intro l
  induction l with
  | nil =>
    intro b hb
    cases hb
  | cons n rest ih =>
    intro b hb
    unfold setLevels at hb
    rcases List.mem_cons.mp hb with h1 | h1
    · by_cases ha : rest.any (fun m => m.id == n.id)
      · rw [if_pos ha] at h1
        subst h1
        exact ⟨n, List.mem_cons_self _ _, rfl, rfl, rfl, Or.inl rfl⟩
      · rw [if_neg ha] at h1
        subst h1
        exact ⟨n, List.mem_cons_self _ _, rfl, rfl, rfl, Or.inr rfl⟩
    · obtain ⟨a, ha, hrest⟩ := ih b h1
      exact ⟨a, List.mem_cons_of_mem _ ha, hrest⟩

/-! Lemmas about writing coordinates back into the node list. -/

lemma applyCoordsAux_length (cs : List (Nat × Rat × Rat)) :
    ∀ (l : List FlowchartNode) (p : Nat),
      (applyCoordsAux cs p l).length = l.length := by
  intro l
  induction l with
  | nil => intro p; rfl
  | cons n rest ih =>
    intro p
    unfold applyCoordsAux
    rw [List.length_cons, List.length_cons, ih]

lemma applyCoords_length (cs : List (Nat × Rat × Rat))
    (l : List FlowchartNode) : (applyCoords cs l).length = l.length :=
  applyCoordsAux_length cs l 0

lemma mem_applyCoordsAux (cs : List (Nat × Rat × Rat)) :
    ∀ (l : List FlowchartNode) (p : Nat) (b : FlowchartNode),
      b ∈ applyCoordsAux cs p l →
      ∃ a ∈ l, b.id = a.id ∧ b.label = a.label ∧ b.shape = a.shape ∧
        b.level = a.level := by
  intro l
  induction l with
  | nil =>
    intro p b hb
    cases hb
  | cons n rest ih =>
    intro p b hb
    unfold applyCoordsAux at hb
    rcases List.mem_cons.mp hb with h1 | h1
    · cases hf : cs.find? (fun c => c.1 == p) with
      | some c =>
        rw [hf] at h1
        subst h1
        exact ⟨n, List.mem_cons_self _ _, rfl, rfl, rfl, rfl⟩
      | none =>
        rw [hf] at h1
        refine ⟨n, List.mem_cons_self _ _, ?_, ?_, ?_, ?_⟩ <;> rw [h1]
    · obtain ⟨a, ha, hrest⟩ := ih (p + 1) b h1
      exact ⟨a, List.mem_cons_of_mem _ ha, hrest⟩

lemma applyCoordsAux_get (cs : List (Nat × Rat × Rat)) :
    ∀ (l : List FlowchartNode) (p i : Nat) (h : i < l.length)
      (h' : i < (applyCoordsAux cs p l).length),
      (applyCoordsAux cs p l).get ⟨i, h'⟩ =
        (match cs.find? (fun c => c.1 == p + i) with
          | some c => { l.get ⟨i, h⟩ with x := some c.2.1, y := some c.2.2 }
          | none => l.get ⟨i, h⟩) := by
  intro l
  induction l with
  | nil =>
    intro p i h h'
    exact absurd h (Nat.not_lt_zero i)
  | cons n rest ih =>
    intro p i h h'
    cases i with
    | zero =>
      rw [Nat.add_zero]
      rfl
    | succ j =>
      have hj : j < rest.length := Nat.lt_of_succ_lt_succ h
      have hj' : j < (applyCoordsAux cs (p + 1) rest).length := by
        rw [applyCoordsAux_length]
        exact hj
      have := ih (p + 1) j hj hj'
      rw [show p + (j + 1) = p + 1 + j by omega]
      exact this

/-! Permutation lemmas for the stable sort and the level groups. -/

lemma insertNode_perm (x : FlowchartNode × Nat) :
    ∀ l, List.Perm (insertNode x l) (x :: l) := by
  intro l
  induction l with
  | nil => exact List.Perm.refl _
  | cons y ys ih =>
    unfold insertNode
    by_cases h : nodeBefore x.1 y.1
    · rw [if_pos h]
    · rw [if_neg h]
      exact List.Perm.trans (List.Perm.cons y ih) (List.Perm.swap x y ys)

lemma sortNodes_perm_gen :
    ∀ (l acc : List (FlowchartNode × Nat)),
      List.Perm (l.foldl (fun acc x => insertNode x acc) acc) (acc ++ l) := by
  intro l
  induction l with
  | nil =>
    intro acc
    rw [List.append_nil]
    exact List.Perm.refl _
  | cons x xs ih =>
    intro acc
    refine List.Perm.trans (ih (insertNode x acc)) ?_
    refine List.Perm.trans (List.Perm.append_right xs (insertNode_perm x acc)) ?_
    exact List.perm_middle.symm

lemma sortNodes_perm (l : List (FlowchartNode × Nat)) :
    List.Perm (sortNodes l) l :=
  sortNodes_perm_gen l []

lemma withPositions_map_snd :
    ∀ (l : List FlowchartNode) (p : Nat),
      (withPositions p l).map Prod.snd = List.range' p l.length := by
  intro l
  induction l with
  | nil => intro p; rfl
  | cons n rest ih =>
    intro p
    show p :: (withPositions (p + 1) rest).map Prod.snd = _
    rw [ih (p + 1)]
    rfl

lemma withPositions_mem :
    ∀ (l : List FlowchartNode) (p : Nat) (x : FlowchartNode × Nat),
      x ∈ withPositions p l →
      ∃ (i : Nat) (h : i < l.length), x.2 = p + i ∧ l.get ⟨i, h⟩ = x.1 := by
  intro l
  induction l with
  | nil =>
    intro p x hx
    cases hx
  | cons n rest ih =>
    intro p x hx
    rcases List.mem_cons.mp hx with h1 | h1
    · subst h1
      exact ⟨0, Nat.succ_pos _, (Nat.add_zero p).symm, rfl⟩
    · obtain ⟨i, hi, hp, hg⟩ := ih (p + 1) x h1
      exact ⟨i + 1, Nat.succ_lt_succ hi, by omega, hg⟩

lemma addToGroups_flat_perm :
    ∀ (gs : List (Nat × List (FlowchartNode × Nat))) (lvl : Nat)
      (n : FlowchartNode × Nat),
      List.Perm (groupsFlat (addToGroups gs lvl n)) (n :: groupsFlat gs) := by
  intro gs
  induction gs with
  | nil =>
    intro lvl n
    exact List.Perm.refl _
  | cons g rest ih =>
    intro lvl n
    obtain ⟨l, ns⟩ := g
    unfold addToGroups
    by_cases h : l = lvl
    · rw [if_pos h]
      show List.Perm ((ns ++ [n]) ++ groupsFlat rest) (n :: (ns ++ groupsFlat rest))
      rw [List.append_assoc]
      exact List.perm_middle
    · rw [if_neg h]
      show List.Perm (ns ++ groupsFlat (addToGroups rest lvl n))
        (n :: (ns ++ groupsFlat rest))
      refine List.Perm.trans (List.Perm.append_left ns (ih lvl n)) ?_
      exact List.perm_middle

lemma groupByLevel_flat_perm_gen :
    ∀ (l : List (FlowchartNode × Nat))
      (acc : List (Nat × List (FlowchartNode × Nat))),
      List.Perm
        (groupsFlat (l.foldl (fun gs x => addToGroups gs (getLevel x.1) x) acc))
        (groupsFlat acc ++ l) := by
  intro l
  induction l with
  | nil =>
    intro acc
    rw [List.append_nil]
    exact List.Perm.refl _
  | cons x xs ih =>
    intro acc
    refine List.Perm.trans (ih (addToGroups acc (getLevel x.1) x)) ?_
    refine List.Perm.trans
      (List.Perm.append_right xs (addToGroups_flat_perm acc (getLevel x.1) x)) ?_
    exact List.perm_middle.symm

lemma groupByLevel_flat_perm (l : List (FlowchartNode × Nat)) :
    List.Perm (groupsFlat (groupByLevel l)) l :=
  groupByLevel_flat_perm_gen l []

/-! Coordinate keys cover exactly the node positions. -/

lemma snakeCoords_map_fst :
    ∀ (l : List (FlowchartNode × Nat)) (k : Nat),
      (snakeCoords k l).map Prod.fst = l.map Prod.snd := by
  intro l
  induction l with
  | nil => intro k; rfl
  | cons x rest ih =>
    intro k
    obtain ⟨n, p⟩ := x
    show p :: (snakeCoords (k + 1) rest).map Prod.fst = _
    rw [ih (k + 1)]
    rfl

lemma rowCoords_map_fst (lvl : Nat) (sx : Rat) :
    ∀ (ns : List (FlowchartNode × Nat)) (k : Nat),
      (rowCoords lvl sx k ns).map Prod.fst = ns.map Prod.snd := by
  intro ns
  induction ns with
  | nil => intro k; rfl
  | cons x rest ih =>
    intro k
    obtain ⟨n, p⟩ := x
    show p :: (rowCoords lvl sx (k + 1) rest).map Prod.fst = _
    rw [ih (k + 1)]
    rfl

lemma hierCoords_map_fst (w : Rat) :
    ∀ gs : List (Nat × List (FlowchartNode × Nat)),
      (hierCoords w gs).map Prod.fst = (groupsFlat gs).map Prod.snd := by
  intro gs
  induction gs with
  | nil => rfl
  | cons g rest ih =>
    obtain ⟨lvl, ns⟩ := g
    show (rowCoords lvl _ 0 ns ++ hierCoords w rest).map Prod.fst = _
    rw [List.map_append, rowCoords_map_fst, ih]
    show _ = (ns ++ groupsFlat rest).map Prod.snd
    rw [List.map_append]

lemma layoutCoords_keys_perm (g : FlowchartData) (d : LayoutDirection) :
    List.Perm ((layoutCoords g d).map Prod.fst)
      (List.range' 0 (leveledNodes g).length) := by
  have hperm : List.Perm ((sortedSeq g).map Prod.snd)
      (List.range' 0 (leveledNodes g).length) := by
    rw [← withPositions_map_snd]
    exact (sortNodes_perm _).map Prod.snd
  cases d with
  | zigZag =>
    show List.Perm ((snakeCoords 0 (sortedSeq g)).map Prod.fst) _
    rw [snakeCoords_map_fst]
    exact hperm
  | topBottom =>
    show List.Perm ((hierCoords _ (groupByLevel (sortedSeq g))).map Prod.fst) _
    rw [hierCoords_map_fst]
    exact List.Perm.trans
      ((groupByLevel_flat_perm (sortedSeq g)).map Prod.snd) hperm

lemma layoutCoords_keys_nodup (g : FlowchartData) (d : LayoutDirection) :
    ((layoutCoords g d).map Prod.fst).Nodup :=
  (layoutCoords_keys_perm g d).symm.nodup (List.nodup_range' 0 _)

lemma layoutCoords_covers (g : FlowchartData) (d : LayoutDirection)
    {p : Nat} (hp : p < (leveledNodes g).length) :
    p ∈ (layoutCoords g d).map Prod.fst :=
  (layoutCoords_keys_perm g d).symm.mem_iff.mp
    (List.mem_range'_1.mpr ⟨Nat.zero_le p, by omega⟩)

/-! Looking up a coordinate assignment by position. -/

lemma find?_cons_eq {α : Type} (f : α → Bool) (a : α) (l : List α) :
    List.find? f (a :: l) = if f a then some a else List.find? f l := by
  by_cases h : f a
  · rw [List.find?_cons_of_pos _ h, if_pos h]
  · rw [List.find?_cons_of_neg _ h, if_neg h]

lemma find?_key_isSome {cs : List (Nat × Rat × Rat)} {p : Nat}
    (h : p ∈ cs.map Prod.fst) : (cs.find? (fun c => c.1 == p)).isSome := by
  induction cs with
  | nil => cases h
  | cons c rest ih =>
    rw [find?_cons_eq]
    by_cases hc : (c.1 == p) = true
    · rw [if_pos hc]
      rfl
    · rw [if_neg hc]
      rcases List.mem_cons.mp h with h1 | h1
      · exact absurd (beq_iff_eq.mpr h1.symm) hc
      · exact ih h1

lemma find?_key_eq {cs : List (Nat × Rat × Rat)} {p : Nat} {v : Rat × Rat}
    (hnd : (cs.map Prod.fst).Nodup) (hm : (p, v) ∈ cs) :
    cs.find? (fun c => c.1 == p) = some (p, v) := by
  induction cs with
  | nil => cases hm
  | cons c rest ih =>
    rw [List.map_cons, List.nodup_cons] at hnd
    rw [find?_cons_eq]
    rcases List.mem_cons.mp hm with h1 | h1
    · rw [if_pos (beq_iff_eq.mpr (congrArg Prod.fst h1).symm), ← h1]
    · have hne : ¬ (c.1 == p) = true := by
        intro hb
        refine hnd.1 ?_
        rw [beq_iff_eq.mp hb]
        exact List.mem_map.mpr ⟨(p, v), h1, rfl⟩
      rw [if_neg hne]
      exact ih hnd.2 h1

/-- Characterization of an output node when its position has a coordinate
assignment: it is the leveled node with `x` and `y` overwritten. -/
lemma computeLayout_get (g : FlowchartData) (d : LayoutDirection)
    (h : g.nodes ≠ []) {p : Nat} (hp : p < (leveledNodes g).length)
    {v : Rat × Rat} (hm : (p, v) ∈ layoutCoords g d) :
    ∃ hp' : p < (computeLayout g d).nodes.length,
      (computeLayout g d).nodes.get ⟨p, hp'⟩ =
        { (leveledNodes g).get ⟨p, hp⟩ with x := some v.1, y := some v.2 } := by
  rw [computeLayout_of_ne d h]
  have hlen : (applyCoords (layoutCoords g d) (leveledNodes g)).length =
      (leveledNodes g).length := applyCoords_length _ _
  refine ⟨by rw [hlen]; exact hp, ?_⟩
  have hget := applyCoordsAux_get (layoutCoords g d) (leveledNodes g) 0 p hp
    (by rw [applyCoordsAux_length]; exact hp)
  rw [Nat.zero_add] at hget
  rw [find?_key_eq (layoutCoords_keys_nodup g d) hm] at hget
  exact hget

/-! The claims. -/

/-- C1.  Sanitization characterization: for every graph with a non-empty node
list, the edge list returned by `computeLayout` is exactly the input edge
list filtered (in input order) by the conjunction of the three rules: both
endpoints exist, no self-loop, and decision-source edges must carry a label
of positive trimmed length. -/
theorem sanitization_characterization (g : FlowchartData)
    (d : LayoutDirection) (h : g.nodes ≠ []) :
    (computeLayout g d).edges = g.edges.filter (specKeepEdge g.nodes) := by
  rw [computeLayout_of_ne d h]
  show sanitizedEdges g = _
  rw [sanitizedEdges_eq_filter]
  exact List.filter_congr fun e _ => keep_eq_specKeep g.nodes e

/-- Witness for C1 on a concrete malformed graph: the dangling edge, the
self-loop and the unlabeled decision edge are dropped, the rest kept in
order. -/
theorem sanitization_characterization_witness :
    exMessy.nodes ≠ [] ∧
      (computeLayout exMessy LayoutDirection.topBottom).edges =
        exMessy.edges.filter (specKeepEdge exMessy.nodes) ∧
      (computeLayout exMessy LayoutDirection.topBottom).edges =
        [{ source := "s", target := "d" },
          { source := "d", target := "s", label := some "No" }] := by
  refine ⟨by decide, sanitization_characterization exMessy
    LayoutDirection.topBottom (by decide), ?_⟩
  decide

/-- C7.  Idempotence of sanitization: applying the three edge filters to an
already-sanitized graph removes no further edges. -/
theorem sanitize_idempotent (g : FlowchartData) :
    sanitize (sanitize g) = sanitize g :=
  sanitize_sanitize g

/-- C9.  Empty-graph guard: a graph with no nodes is returned unchanged, the
edge list as-is, with no sanitization applied. -/
theorem empty_graph_guard (g : FlowchartData) (d : LayoutDirection)
    (h : g.nodes = []) :
    computeLayout g d = g ∧ (computeLayout g d).edges = g.edges := by
  have h1 := computeLayout_empty d h
  exact ⟨h1, by rw [h1]⟩

/-- Witness for C9: the empty graph keeps even a dangling edge untouched. -/
theorem empty_graph_guard_witness :
    exEmpty.nodes = [] ∧
      computeLayout exEmpty LayoutDirection.zigZag = exEmpty ∧
      (computeLayout exEmpty LayoutDirection.zigZag).edges = exEmpty.edges :=
  ⟨rfl, empty_graph_guard exEmpty LayoutDirection.zigZag rfl⟩

/-- C10.  Root inference operates on the sanitized edge list: in
`exDroppedTarget`, node `b` is targeted only by an unlabeled edge out of the
decision node `a`; sanitization drops that edge, so `b` is never targeted in
the sanitized list and becomes the BFS root (level 0, with its successors
leveled below it), whereas on the raw edges every node is targeted and the
fallback root would have been `a`. -/
theorem root_inference_on_sanitized_edges :
    inferRoot exDroppedTarget.nodes (sanitizedEdges exDroppedTarget) = "b" ∧
      (exDroppedTarget.edges.filter (fun e => e.target == "b")).length = 1 ∧
      inferRoot exDroppedTarget.nodes exDroppedTarget.edges = "a" ∧
      (∀ n ∈ (computeLayout exDroppedTarget LayoutDirection.topBottom).nodes,
        (n.id = "b" → n.level = some 0) ∧
        (n.id = "c" → n.level = some 1) ∧
        (n.id = "a" → n.level = some 2)) := by
  decide

/-! Geometry lemmas for the two coordinate strategies. -/

lemma snakeCoords_length :
    ∀ (l : List (FlowchartNode × Nat)) (k : Nat),
      (snakeCoords k l).length = l.length := by
  intro l k
  have h := congrArg List.length (snakeCoords_map_fst l k)
  rw [List.length_map, List.length_map] at h
  exact h

lemma snakeCoords_get :
    ∀ (l : List (FlowchartNode × Nat)) (k i : Nat) (h : i < l.length)
      (h' : i < (snakeCoords k l).length),
      (snakeCoords k l).get ⟨i, h'⟩ =
        ((l.get ⟨i, h⟩).2, snakeX (k + i), snakeY (k + i)) := by
  intro l
  induction l with
  | nil =>
    intro k i h h'
    exact absurd h (Nat.not_lt_zero i)
  | cons x rest ih =>
    intro k i h h'
    obtain ⟨n, p⟩ := x
    cases i with
    | zero =>
      rw [Nat.add_zero]
      rfl
    | succ j =>
      have hj : j < rest.length := Nat.lt_of_succ_lt_succ h
      have hj' : j < (snakeCoords (k + 1) rest).length := by
        rw [snakeCoords_length]
        exact hj
      have := ih (k + 1) j hj hj'
      rw [show k + (j + 1) = k + 1 + j by omega]
      exact this

lemma rowCoords_length (lvl : Nat) (sx : Rat) :
    ∀ (ns : List (FlowchartNode × Nat)) (k : Nat),
      (rowCoords lvl sx k ns).length = ns.length := by
  intro ns k
  have h := congrArg List.length (rowCoords_map_fst lvl sx ns k)
  rw [List.length_map, List.length_map] at h
  exact h

lemma rowCoords_get (lvl : Nat) (sx : Rat) :
    ∀ (ns : List (FlowchartNode × Nat)) (k j : Nat) (h : j < ns.length)
      (h' : j < (rowCoords lvl sx k ns).length),
      (rowCoords lvl sx k ns).get ⟨j, h'⟩ =
        ((ns.get ⟨j, h⟩).2,
          sx + ((k + j : Nat) : Rat) * (NODE_WIDTH + X_GAP) + NODE_WIDTH / 2,
          (lvl : Rat) * (NODE_HEIGHT + Y_GAP) + CANVAS_PADDING +
            NODE_HEIGHT / 2) := by
  intro ns
  induction ns with
  | nil =>
    intro k j h h'
    exact absurd h (Nat.not_lt_zero j)
  | cons x rest ih =>
    intro k j h h'
    obtain ⟨n, p⟩ := x
    cases j with
    | zero =>
      rw [Nat.add_zero]
      rfl
    | succ j' =>
      have hj : j' < rest.length := Nat.lt_of_succ_lt_succ h
      have hj' : j' < (rowCoords lvl sx (k + 1) rest).length := by
        rw [rowCoords_length]
        exact hj
      have := ih (k + 1) j' hj hj'
      rw [show k + (j' + 1) = k + 1 + j' by omega]
      exact this

lemma mem_hierCoords (w : Rat) :
    ∀ (gs : List (Nat × List (FlowchartNode × Nat))) (lvl : Nat)
      (ns : List (FlowchartNode × Nat)), (lvl, ns) ∈ gs →
      ∀ c ∈ rowCoords lvl ((w - rowWidth ns.length) / 2 + CANVAS_PADDING) 0 ns,
        c ∈ hierCoords w gs := by
  intro gs
  induction gs with
  | nil =>
    intro lvl ns hg
    cases hg
  | cons g rest ih =>
    intro lvl ns hg c hc
    rcases List.mem_cons.mp hg with h1 | h1
    · subst h1
      exact List.mem_append.mpr (Or.inl hc)
    · obtain ⟨l0, ns0⟩ := g
      exact List.mem_append.mpr (Or.inr (ih lvl ns h1 c hc))

lemma mem_groupsFlat :
    ∀ (gs : List (Nat × List (FlowchartNode × Nat))) (lvl : Nat)
      (ns : List (FlowchartNode × Nat)) (x : FlowchartNode × Nat),
      (lvl, ns) ∈ gs → x ∈ ns → x ∈ groupsFlat gs := by
  intro gs
  induction gs with
  | nil =>
    intro lvl ns x hg
    cases hg
  | cons g rest ih =>
    intro lvl ns x hg hx
    rcases List.mem_cons.mp hg with h1 | h1
    · subst h1
      exact List.mem_append.mpr (Or.inl hx)
    · obtain ⟨l0, ns0⟩ := g
      exact List.mem_append.mpr (Or.inr (ih lvl ns x h1 hx))

/-- An entry of the sorted sequence names a position in the leveled node
list and carries the node sitting there. -/
lemma sortedSeq_entry (g : FlowchartData) {x : FlowchartNode × Nat}
    (hx : x ∈ sortedSeq g) :
    ∃ h : x.2 < (leveledNodes g).length,
      (leveledNodes g).get ⟨x.2, h⟩ = x.1 := by
  have hw : x ∈ withPositions 0 (leveledNodes g) :=
    (sortNodes_perm _).mem_iff.mp hx
  obtain ⟨i, hi, hpi, hgi⟩ := withPositions_mem (leveledNodes g) 0 x hw
  rw [Nat.zero_add] at hpi
  subst hpi
  exact ⟨hi, hgi⟩

lemma snakeRow_eq (i : Nat) : snakeRow i = i / 4 :=
  rfl

lemma snakeCol_eq (i : Nat) :
    snakeCol i = (if (i / 4) % 2 = 1 then 3 - i % 4 else i % 4) := by
  unfold snakeCol snakeRow SNAKE_COLUMNS
  dsimp only
  rcases Nat.mod_two_eq_zero_or_one (i / 4) with h | h
  · rw [h]
    simp
  · rw [h]
    simp

lemma snakeX_eq (i : Nat) :
    snakeX i = (snakeCol i : Rat) * (220 + 60) + 50 + 110 := by
  unfold snakeX NODE_WIDTH X_GAP CANVAS_PADDING
  norm_num

lemma snakeY_eq (i : Nat) :
    snakeY i = (snakeRow i : Rat) * (140 + 100) + 50 + 70 := by
  unfold snakeY NODE_HEIGHT Y_GAP CANVAS_PADDING
  norm_num

/-- C4.  Snake layout geometry: under the zig-zag direction the node at
index `i` of the `(level, id)`-sorted sequence sits at row `i / 4` and
column `i % 4` (reflected to `3 - i % 4` on odd rows) and receives center
coordinates `x = col * (220 + 60) + 50 + 110`, `y = row * (140 + 100) + 50
+ 70`. -/
theorem snake_layout_geometry (g : FlowchartData) (i : Nat)
    (hne : g.nodes ≠ []) (hi : i < (sortedSeq g).length) :
    ∃ hp : ((sortedSeq g).get ⟨i, hi⟩).2 <
        (computeLayout g LayoutDirection.zigZag).nodes.length,
      ((computeLayout g LayoutDirection.zigZag).nodes.get
        ⟨((sortedSeq g).get ⟨i, hi⟩).2, hp⟩).id =
          ((sortedSeq g).get ⟨i, hi⟩).1.id ∧
      ((computeLayout g LayoutDirection.zigZag).nodes.get
        ⟨((sortedSeq g).get ⟨i, hi⟩).2, hp⟩).x =
          some ((snakeCol i : Rat) * (220 + 60) + 50 + 110) ∧
      ((computeLayout g LayoutDirection.zigZag).nodes.get
        ⟨((sortedSeq g).get ⟨i, hi⟩).2, hp⟩).y =
          some ((snakeRow i : Rat) * (140 + 100) + 50 + 70) ∧
      snakeRow i = i / 4 ∧
      snakeCol i = (if (i / 4) % 2 = 1 then 3 - i % 4 else i % 4) := by
  obtain ⟨hp0, hg0⟩ := sortedSeq_entry g (List.get_mem (sortedSeq g) i hi)
  have hi' : i < (snakeCoords 0 (sortedSeq g)).length := by
    rw [snakeCoords_length]
    exact hi
  have hcg := snakeCoords_get (sortedSeq g) 0 i hi hi'
  rw [Nat.zero_add] at hcg
  have hmem : (((sortedSeq g).get ⟨i, hi⟩).2, snakeX i, snakeY i) ∈
      layoutCoords g LayoutDirection.zigZag := by
    show _ ∈ snakeCoords 0 (sortedSeq g)
    rw [← hcg]
    exact List.get_mem _ i hi'
  obtain ⟨hp, hout⟩ :=
    computeLayout_get g LayoutDirection.zigZag hne hp0 hmem
  refine ⟨hp, ?_, ?_, ?_, snakeRow_eq i, snakeCol_eq i⟩
  · rw [hout, hg0]
  · rw [hout]
    show some (snakeX i) = _
    rw [snakeX_eq]
  · rw [hout]
    show some (snakeY i) = _
    rw [snakeY_eq]

/-- Witness for C4 on the nine-node chain: sequence index 4 sits at column 3
of row 1 and index 7 at column 0 of row 1, with the claimed coordinates. -/
theorem snake_layout_geometry_witness :
    chain9.nodes ≠ [] ∧
    (∃ h4 : 4 < (sortedSeq chain9).length,
      ∃ hp : ((sortedSeq chain9).get ⟨4, h4⟩).2 <
          (computeLayout chain9 LayoutDirection.zigZag).nodes.length,
        ((computeLayout chain9 LayoutDirection.zigZag).nodes.get
          ⟨((sortedSeq chain9).get ⟨4, h4⟩).2, hp⟩).id =
            ((sortedSeq chain9).get ⟨4, h4⟩).1.id ∧
        ((computeLayout chain9 LayoutDirection.zigZag).nodes.get
          ⟨((sortedSeq chain9).get ⟨4, h4⟩).2, hp⟩).x =
            some ((snakeCol 4 : Rat) * (220 + 60) + 50 + 110) ∧
        ((computeLayout chain9 LayoutDirection.zigZag).nodes.get
          ⟨((sortedSeq chain9).get ⟨4, h4⟩).2, hp⟩).y =
            some ((snakeRow 4 : Rat) * (140 + 100) + 50 + 70) ∧
        snakeRow 4 = 4 / 4 ∧
        snakeCol 4 = (if (4 / 4) % 2 = 1 then 3 - 4 % 4 else 4 % 4)) ∧
    (∃ h7 : 7 < (sortedSeq chain9).length,
      ∃ hp : ((sortedSeq chain9).get ⟨7, h7⟩).2 <
          (computeLayout chain9 LayoutDirection.zigZag).nodes.length,
        ((computeLayout chain9 LayoutDirection.zigZag).nodes.get
          ⟨((sortedSeq chain9).get ⟨7, h7⟩).2, hp⟩).id =
            ((sortedSeq chain9).get ⟨7, h7⟩).1.id ∧
        ((computeLayout chain9 LayoutDirection.zigZag).nodes.get
          ⟨((sortedSeq chain9).get ⟨7, h7⟩).2, hp⟩).x =
            some ((snakeCol 7 : Rat) * (220 + 60) + 50 + 110) ∧
        ((computeLayout chain9 LayoutDirection.zigZag).nodes.get
          ⟨((sortedSeq chain9).get ⟨7, h7⟩).2, hp⟩).y =
            some ((snakeRow 7 : Rat) * (140 + 100) + 50 + 70) ∧
        snakeRow 7 = 7 / 4 ∧
        snakeCol 7 = (if (7 / 4) % 2 = 1 then 3 - 7 % 4 else 7 % 4)) ∧
    snakeRow 4 = 1 ∧ snakeCol 4 = 3 ∧ snakeRow 7 = 1 ∧ snakeCol 7 = 0 :=
  ⟨by decide,
    ⟨by decide, snake_layout_geometry chain9 4 (by decide) (by decide)⟩,
    ⟨by decide, snake_layout_geometry chain9 7 (by decide) (by decide)⟩,
    by decide, by decide, by decide, by decide⟩

lemma hier_x_eq (w : Rat) (count k : Nat) :
    (w - rowWidth count) / 2 + CANVAS_PADDING +
        ((k : Nat) : Rat) * (NODE_WIDTH + X_GAP) + NODE_WIDTH / 2 =
      (w - ((count : Rat) * (220 + 60) - 60)) / 2 + 50 +
        (k : Rat) * (220 + 60) + 110 := by
  unfold rowWidth NODE_WIDTH X_GAP CANVAS_PADDING
  norm_num

lemma hier_y_eq (lvl : Nat) :
    (lvl : Rat) * (NODE_HEIGHT + Y_GAP) + CANVAS_PADDING + NODE_HEIGHT / 2 =
      (lvl : Rat) * (140 + 100) + 50 + 70 := by
  unfold NODE_HEIGHT Y_GAP CANVAS_PADDING
  norm_num

/-- C5.  Hierarchical (top-bottom) layout geometry: nodes are grouped by
level; a group of `count` nodes has row width `count * (220 + 60) - 60`;
`maxRowWidth` is the maximum over groups of `count * (220 + 60)`; the `k`-th
node of a group is centered at
`x = (maxRowWidth - rowWidth) / 2 + 50 + k * (220 + 60) + 110` (so
consecutive centers in a row are 280 apart) and at
`y = level * (140 + 100) + 50 + 70` (so a level shares one row). -/
theorem hierarchical_layout_geometry (g : FlowchartData) (hne : g.nodes ≠ [])
    (lvl : Nat) (ns : List (FlowchartNode × Nat))
    (hg : (lvl, ns) ∈ groupByLevel (sortedSeq g))
    (k : Nat) (hk : k < ns.length) :
    maxRowWidthOf (groupByLevel (sortedSeq g)) =
      (groupByLevel (sortedSeq g)).foldl
        (fun m q => max m ((q.2.length : Rat) * (220 + 60))) 0 ∧
    ∃ hp : (ns.get ⟨k, hk⟩).2 <
        (computeLayout g LayoutDirection.topBottom).nodes.length,
      ((computeLayout g LayoutDirection.topBottom).nodes.get
        ⟨(ns.get ⟨k, hk⟩).2, hp⟩).id = (ns.get ⟨k, hk⟩).1.id ∧
      ((computeLayout g LayoutDirection.topBottom).nodes.get
        ⟨(ns.get ⟨k, hk⟩).2, hp⟩).x =
          some ((maxRowWidthOf (groupByLevel (sortedSeq g)) -
            ((ns.length : Rat) * (220 + 60) - 60)) / 2 + 50 +
            (k : Rat) * (220 + 60) + 110) ∧
      ((computeLayout g LayoutDirection.topBottom).nodes.get
        ⟨(ns.get ⟨k, hk⟩).2, hp⟩).y =
          some ((lvl : Rat) * (140 + 100) + 50 + 70) := by
  refine ⟨rfl, ?_⟩
  have hmem0 : ns.get ⟨k, hk⟩ ∈ sortedSeq g :=
    (groupByLevel_flat_perm (sortedSeq g)).mem_iff.mp
      (mem_groupsFlat (groupByLevel (sortedSeq g)) lvl ns _ hg
        (List.get_mem ns k hk))
  obtain ⟨hp0, hg0⟩ := sortedSeq_entry g hmem0
  have hk' : k <
      (rowCoords lvl
        ((maxRowWidthOf (groupByLevel (sortedSeq g)) - rowWidth ns.length) / 2 +
          CANVAS_PADDING) 0 ns).length := by
    rw [rowCoords_length]
    exact hk
  have hcg := rowCoords_get lvl
    ((maxRowWidthOf (groupByLevel (sortedSeq g)) - rowWidth ns.length) / 2 +
      CANVAS_PADDING) ns 0 k hk hk'
  rw [Nat.zero_add] at hcg
  have hmem : ((ns.get ⟨k, hk⟩).2,
      (maxRowWidthOf (groupByLevel (sortedSeq g)) - rowWidth ns.length) / 2 +
        CANVAS_PADDING + ((k : Nat) : Rat) * (NODE_WIDTH + X_GAP) +
        NODE_WIDTH / 2,
      (lvl : Rat) * (NODE_HEIGHT + Y_GAP) + CANVAS_PADDING + NODE_HEIGHT / 2) ∈
      layoutCoords g LayoutDirection.topBottom := by
    show _ ∈ hierCoords (maxRowWidthOf (groupByLevel (sortedSeq g)))
      (groupByLevel (sortedSeq g))
    refine mem_hierCoords _ _ lvl ns hg _ ?_
    rw [← hcg]
    exact List.get_mem _ k hk'
  obtain ⟨hp, hout⟩ :=
    computeLayout_get g LayoutDirection.topBottom hne hp0 hmem
  refine ⟨hp, ?_, ?_, ?_⟩
  · rw [hout, hg0]
  · rw [hout]
    show some _ = _
    rw [hier_x_eq]
  · rw [hout]
    show some _ = _
    rw [hier_y_eq]

/-- Witness for C5 on the two-child tree `exFork`: the level-1 group holds
nodes `b` and `c`; node `b` (group index 0, input position 1) is placed per
the formula, and concretely the three nodes sit at (330, 120), (190, 360)
and (470, 360). -/
theorem hierarchical_layout_geometry_witness :
    exFork.nodes ≠ [] ∧
    (∃ hp : 1 < (computeLayout exFork LayoutDirection.topBottom).nodes.length,
      ((computeLayout exFork LayoutDirection.topBottom).nodes.get
        ⟨1, hp⟩).id = "b") ∧
    (∀ n ∈ (computeLayout exFork LayoutDirection.topBottom).nodes,
      (n.id = "a" → n.x = some 330 ∧ n.y = some 120) ∧
      (n.id = "b" → n.x = some 190 ∧ n.y = some 360) ∧
      (n.id = "c" → n.x = some 470 ∧ n.y = some 360)) := by
  obtain ⟨hmax, hp, hid, hx, hy⟩ :=
    hierarchical_layout_geometry exFork (by decide) 1
      [({ id := "b", label := "B", shape := NodeShape.rectangle,
          x := none, y := none, level := some 1 }, 1),
       ({ id := "c", label := "C", shape := NodeShape.rectangle,
          x := none, y := none, level := some 1 }, 2)]
      (by decide) 0 (by decide)
  exact ⟨by decide, ⟨hp, hid⟩, by decide⟩

/-! Levels of the output nodes. -/

lemma computeLayout_level_of_levels_zero {g : FlowchartData}
    (d : LayoutDirection) (hne : g.nodes ≠ []) {n : FlowchartNode}
    (hn : n ∈ (computeLayout g d).nodes)
    (h0 : (bfsOf g).levels n.id = 0) : n.level = some 0 := by
  rw [computeLayout_of_ne d hne] at hn
  obtain ⟨a, ha, hid, _, _, hlev⟩ := mem_applyCoordsAux _ _ 0 n hn
  obtain ⟨n0, hn0, hid0, _, _, hl0⟩ := mem_setLevels _ _ a ha
  rcases hl0 with h1 | h1
  · rw [hlev, h1]
  · rw [hlev, h1, ← hid0, ← hid, h0]

lemma computeLayout_level_eq {g : FlowchartData} (d : LayoutDirection)
    (hne : g.nodes ≠ []) (hnd : (g.nodes.map (fun n => n.id)).Nodup)
    {n : FlowchartNode} (hn : n ∈ (computeLayout g d).nodes) :
    n.level = some ((bfsOf g).levels n.id) := by
  rw [computeLayout_of_ne d hne] at hn
  obtain ⟨a, ha, hid, _, _, hlev⟩ := mem_applyCoordsAux _ _ 0 n hn
  rw [show leveledNodes g = _ from setLevels_eq_of_nodup _ g.nodes hnd] at ha
  obtain ⟨n0, hn0, hmap⟩ := List.mem_map.mp ha
  have hnid : n.id = n0.id := by
    rw [hid, ← hmap]
  rw [hlev, ← hmap, hnid]

/-- C2.  BFS leveling: every node discovered through a discovering edge
`(u, v)` ends one level below its discoverer, and every node unreachable
from the inferred root keeps level 0. -/
theorem bfs_leveling (g : FlowchartData) (d : LayoutDirection)
    (hne : g.nodes ≠ []) (hnd : (g.nodes.map (fun n => n.id)).Nodup) :
    (∀ pr ∈ (bfsOf g).parents,
      ∀ nu ∈ (computeLayout g d).nodes, ∀ nv ∈ (computeLayout g d).nodes,
        nu.id = pr.1 → nv.id = pr.2 →
          nv.level = some (nu.level.getD 0 + 1)) ∧
    (∀ n ∈ (computeLayout g d).nodes,
      ¬ Reach (sanitizedEdges g) (inferRoot g.nodes (sanitizedEdges g))
          n.id → n.level = some 0) := by
  constructor
  · intro pr hpr nu hnu nv hnv hu hv
    have hlu := computeLayout_level_eq d hne hnd hnu
    have hlv := computeLayout_level_eq d hne hnd hnv
    rw [hlu, hu]
    rw [hlv, hv, bfsOf_parents_levels hne pr hpr]
    rfl
  · intro n hn hr
    exact computeLayout_level_of_levels_zero d hne hn
      (bfsOf_unreachable_level hne hr)

/-- Witness for C2 on `exPath` (edge a→b, node c unreachable): the theorem
applies, the only discovering edge is (a, b), and concretely b ends at
level 1 and c at level 0. -/
theorem bfs_leveling_witness :
    (exPath.nodes ≠ [] ∧ (exPath.nodes.map (fun n => n.id)).Nodup ∧
      (bfsOf exPath).parents = [("a", "b")] ∧
      (∀ n ∈ (computeLayout exPath LayoutDirection.topBottom).nodes,
        (n.id = "a" → n.level = some 0) ∧
        (n.id = "b" → n.level = some 1) ∧
        (n.id = "c" → n.level = some 0))) ∧
    ((∀ pr ∈ (bfsOf exPath).parents,
      ∀ nu ∈ (computeLayout exPath LayoutDirection.topBottom).nodes,
        ∀ nv ∈ (computeLayout exPath LayoutDirection.topBottom).nodes,
          nu.id = pr.1 → nv.id = pr.2 →
            nv.level = some (nu.level.getD 0 + 1)) ∧
     (∀ n ∈ (computeLayout exPath LayoutDirection.topBottom).nodes,
       ¬ Reach (sanitizedEdges exPath)
           (inferRoot exPath.nodes (sanitizedEdges exPath)) n.id →
         n.level = some 0)) :=
  ⟨⟨by decide, by decide, by decide, by decide⟩,
    bfs_leveling exPath LayoutDirection.topBottom (by decide) (by decide)⟩

/-! Root inference. -/

lemma specFirstUntargeted_eq (nodes : List FlowchartNode)
    (edges : List FlowchartEdge) :
    specFirstUntargeted nodes edges =
      nodes.find?
        (fun n => !((edges.map (fun e => e.target)).contains n.id)) := by
  unfold specFirstUntargeted
  refine find?_congr_pred _ fun n _ => ?_
  by_cases h : ∀ e ∈ edges, ¬ e.target = n.id
  · have hc : (edges.map (fun e => e.target)).contains n.id = false :=
      contains_eq_false_iff.mpr (fun hm => by
        obtain ⟨e, he, het⟩ := List.mem_map.mp hm
        exact h e he het)
    rw [decide_eq_true h, hc]
    rfl
  · have hc : (edges.map (fun e => e.target)).contains n.id = true := by
      push_neg at h
      obtain ⟨e, he, het⟩ := h
      exact contains_iff.mpr (List.mem_map.mpr ⟨e, he, het⟩)
    rw [decide_eq_false h, hc]
    rfl

/-- C3 (amended).  Root inference: the BFS root is the first node in listing
order that is not the target of any sanitized edge, provided its id is a
non-empty string; when there is no such node, or its id is the empty string
(a falsy value under the JavaScript `||`), the first node in listing order
is used; in all cases the chosen root ends with level 0. -/
theorem root_inference (g : FlowchartData) (d : LayoutDirection)
    (hne : g.nodes ≠ []) :
    (∀ n, specFirstUntargeted g.nodes (sanitizedEdges g) = some n →
      (n.id ≠ "" → inferRoot g.nodes (sanitizedEdges g) = n.id) ∧
      (n.id = "" →
        some (inferRoot g.nodes (sanitizedEdges g)) =
          g.nodes.head?.map (fun m => m.id))) ∧
    (specFirstUntargeted g.nodes (sanitizedEdges g) = none →
      some (inferRoot g.nodes (sanitizedEdges g)) =
        g.nodes.head?.map (fun m => m.id)) ∧
    (∀ n ∈ (computeLayout g d).nodes,
      n.id = inferRoot g.nodes (sanitizedEdges g) → n.level = some 0) := by
  have hhead : ∃ a, g.nodes.head? = some a := by
    cases hg : g.nodes with
    | nil => exact absurd hg hne
    | cons a t => exact ⟨a, rfl⟩
  obtain ⟨a, ha⟩ := hhead
  refine ⟨?_, ?_, ?_⟩
  · intro n hf
    rw [specFirstUntargeted_eq] at hf
    constructor
    · intro hid
      unfold inferRoot
      dsimp only
      rw [hf]
      dsimp only
      rw [if_neg hid]
    · intro hid
      unfold inferRoot
      dsimp only
      rw [hf]
      dsimp only
      rw [if_pos hid, ha]
      rfl
  · intro hf
    rw [specFirstUntargeted_eq] at hf
    unfold inferRoot
    dsimp only
    rw [hf]
    dsimp only
    rw [ha]
    rfl
  · intro n hn hid
    refine computeLayout_level_of_levels_zero d hne hn ?_
    rw [hid]
    exact bfsOf_root_level hne

/-- Counterexample to C3 as stated: in `exEmptyId` the first node that is
not the target of any (sanitized) edge is the node with the empty-string id,
yet `computeLayout`'s root inference returns "b" — the JavaScript
`find(...)?.id || nodes[0].id` treats the empty id as falsy and falls back
to the first node. -/
theorem root_inference_counterexample :
    (specFirstUntargeted exEmptyId.nodes (sanitizedEdges exEmptyId)).map
        (fun n => n.id) = some "" ∧
      inferRoot exEmptyId.nodes (sanitizedEdges exEmptyId) = "b" ∧
      ¬ ("b" = "") := by
  decide

/-- Witness for the amended C3 on `exFork`: the theorem applies, the first
never-targeted node is `a`, and the inferred root `a` has level 0. -/
theorem root_inference_witness :
    (exFork.nodes ≠ [] ∧
      (specFirstUntargeted exFork.nodes (sanitizedEdges exFork)).map
        (fun n => n.id) = some "a" ∧
      inferRoot exFork.nodes (sanitizedEdges exFork) = "a") ∧
    ((∀ n, specFirstUntargeted exFork.nodes (sanitizedEdges exFork) = some n →
      (n.id ≠ "" → inferRoot exFork.nodes (sanitizedEdges exFork) = n.id) ∧
      (n.id = "" →
        some (inferRoot exFork.nodes (sanitizedEdges exFork)) =
          exFork.nodes.head?.map (fun m => m.id))) ∧
    (specFirstUntargeted exFork.nodes (sanitizedEdges exFork) = none →
      some (inferRoot exFork.nodes (sanitizedEdges exFork)) =
        exFork.nodes.head?.map (fun m => m.id)) ∧
    (∀ n ∈ (computeLayout exFork LayoutDirection.zigZag).nodes,
      n.id = inferRoot exFork.nodes (sanitizedEdges exFork) →
        n.level = some 0)) :=
  ⟨⟨by decide, by decide, by decide⟩,
    root_inference exFork LayoutDirection.zigZag (by decide)⟩

/-! Frame property. -/

lemma setLevels_map_skeleton (f : String → Nat) :
    ∀ l : List FlowchartNode,
      (setLevels f l).map skeleton = l.map skeleton := by
  intro l
  induction l with
  | nil => rfl
  | cons n rest ih =>
    unfold setLevels
    by_cases h : rest.any (fun m => m.id == n.id)
    · rw [if_pos h, List.map_cons, List.map_cons, ih]
      rfl
    · rw [if_neg h, List.map_cons, List.map_cons, ih]
      rfl

lemma applyCoordsAux_map_skeleton (cs : List (Nat × Rat × Rat)) :
    ∀ (l : List FlowchartNode) (p : Nat),
      (applyCoordsAux cs p l).map skeleton = l.map skeleton := by
  intro l
  induction l with
  | nil => intro p; rfl
  | cons n rest ih =>
    intro p
    unfold applyCoordsAux
    rw [List.map_cons, List.map_cons, ih]
    cases hf : cs.find? (fun c => c.1 == p) with
    | some c => rfl
    | none => rfl

lemma computeLayout_map_skeleton (g : FlowchartData) (d : LayoutDirection) :
    (computeLayout g d).nodes.map skeleton = g.nodes.map skeleton := by
  by_cases h : g.nodes = []
  · rw [computeLayout_empty d h]
  · rw [computeLayout_of_ne d h]
    show (applyCoords _ (leveledNodes g)).map skeleton = _
    unfold applyCoords
    rw [applyCoordsAux_map_skeleton]
    exact setLevels_map_skeleton _ g.nodes

/-- C8.  Frame property: `computeLayout` never changes a node's id, label or
shape, and returns the same nodes, in the same order and count; only level,
x, y and the edge list change. -/
theorem frame_property (g : FlowchartData) (d : LayoutDirection) :
    (computeLayout g d).nodes.map skeleton = g.nodes.map skeleton ∧
    (computeLayout g d).nodes.length = g.nodes.length ∧
    (computeLayout g d).nodes.map (fun n => n.id) =
      g.nodes.map (fun n => n.id) := by
  have hskel := computeLayout_map_skeleton g d
  refine ⟨hskel, ?_, ?_⟩
  · have h1 := congrArg List.length hskel
    rw [List.length_map, List.length_map] at h1
    exact h1
  · have h1 := congrArg
      (List.map (fun q : String × String × NodeShape => q.1)) hskel
    rw [List.map_map, List.map_map] at h1
    exact h1

/-! Re-running the layout on its own output: the second run's sanitization,
root inference and traversal coincide with the first run's. -/

lemma map_id_of_map_skeleton {ns1 ns2 : List FlowchartNode}
    (h : ns1.map skeleton = ns2.map skeleton) :
    ns1.map (fun n => n.id) = ns2.map (fun n => n.id) := by
  have h1 := congrArg
    (List.map (fun q : String × String × NodeShape => q.1)) h
  rw [List.map_map, List.map_map] at h1
  exact h1

lemma filter_cons_eq {α : Type} (f : α → Bool) (a : α) (l : List α) :
    List.filter f (a :: l) =
      if f a then a :: List.filter f l else List.filter f l := by
  by_cases h : f a
  · rw [List.filter_cons_of_pos h, if_pos h]
  · rw [List.filter_cons_of_neg h, if_neg h]

lemma skeleton_map_eq_diamond : ∀ {ns1 ns2 : List FlowchartNode},
    ns1.map skeleton = ns2.map skeleton →
    (ns1.filter (fun n => n.shape == NodeShape.diamond)).map
        (fun n => n.id) =
      (ns2.filter (fun n => n.shape == NodeShape.diamond)).map
        (fun n => n.id) := by
  intro ns1
  induction ns1 with
  | nil =>
    intro ns2 h
    rw [List.map_eq_nil.mp h.symm]
  | cons n1 t1 ih =>
    intro ns2 h
    cases ns2 with
    | nil =>
      rw [List.map_cons] at h
      exact (List.cons_ne_nil _ _ h).elim
    | cons n2 t2 =>
      rw [List.map_cons, List.map_cons] at h
      injection h with h1 h2
      have hid : n1.id = n2.id := congrArg (fun q => q.1) h1
      have hsh : n1.shape = n2.shape := congrArg (fun q => q.2.2) h1
      rw [filter_cons_eq, filter_cons_eq]
      by_cases hd : n1.shape == NodeShape.diamond
      · rw [if_pos hd,
          if_pos (show (n2.shape == NodeShape.diamond) = true
            by rw [← hsh]; exact hd),
          List.map_cons, List.map_cons, hid, ih h2]
      · rw [if_neg hd,
          if_neg (show ¬ (n2.shape == NodeShape.diamond) = true
            by rw [← hsh]; exact hd)]
        exact ih h2

lemma sanitizedEdges_of_computeLayout (g : FlowchartData)
    (d : LayoutDirection) :
    sanitizedEdges (computeLayout g d) = sanitizedEdges g := by
  by_cases h : g.nodes = []
  · rw [computeLayout_empty d h]
  · have hskel := computeLayout_map_skeleton g d
    have hid := map_id_of_map_skeleton hskel
    have hdia := skeleton_map_eq_diamond hskel
    have hedges : (computeLayout g d).edges = sanitizedEdges g := by
      rw [computeLayout_of_ne d h]
    show (sanitize (computeLayout g d)).edges = _
    unfold sanitize
    dsimp only
    rw [hid, hdia, hedges,
      List.filter_eq_self.mpr (fun e he => (mem_sanitizedEdges_keep he).1),
      List.filter_eq_self.mpr (fun e he => (mem_sanitizedEdges_keep he).2.1),
      List.filter_eq_self.mpr (fun e he => (mem_sanitizedEdges_keep he).2.2)]

lemma find?_id_congr (p : String → Bool) :
    ∀ {ns1 ns2 : List FlowchartNode},
      ns1.map (fun n => n.id) = ns2.map (fun n => n.id) →
      (ns1.find? (fun n => p n.id)).map (fun n => n.id) =
        (ns2.find? (fun n => p n.id)).map (fun n => n.id) := by
  intro ns1
  induction ns1 with
  | nil =>
    intro ns2 h
    rw [List.map_eq_nil.mp h.symm]
  | cons n1 t1 ih =>
    intro ns2 h
    cases ns2 with
    | nil =>
      rw [List.map_cons] at h
      exact (List.cons_ne_nil _ _ h).elim
    | cons n2 t2 =>
      rw [List.map_cons, List.map_cons] at h
      injection h with h1 h2
      rw [find?_cons_eq, find?_cons_eq]
      by_cases hp : p n1.id
      · rw [if_pos hp, if_pos (show p n2.id = true by rw [← h1]; exact hp)]
        show some n1.id = some n2.id
        rw [h1]
      · rw [if_neg hp,
          if_neg (show ¬ p n2.id = true by rw [← h1]; exact hp)]
        exact ih h2

lemma inferRoot_congr {ns1 ns2 : List FlowchartNode}
    (edges : List FlowchartEdge)
    (h : ns1.map (fun n => n.id) = ns2.map (fun n => n.id)) :
    inferRoot ns1 edges = inferRoot ns2 edges := by
  have hf := find?_id_congr
    (fun i => !((edges.map (fun e => e.target)).contains i)) h
  have hh : ns1.head?.map (fun n => n.id) = ns2.head?.map (fun n => n.id) := by
    rw [← List.head?_map, ← List.head?_map, h]
  have hgd : (ns1.head?.map (fun n => n.id)).getD "" =
      (ns2.head?.map (fun n => n.id)).getD "" := by
    rw [hh]
  unfold inferRoot
  dsimp only
  cases hf1 : ns1.find?
      (fun n => !((edges.map (fun e => e.target)).contains n.id)) with
  | none =>
    rw [hf1] at hf
    cases hf2 : ns2.find?
        (fun n => !((edges.map (fun e => e.target)).contains n.id)) with
    | none => exact hgd
    | some n2 =>
      rw [hf2] at hf
      cases hf
  | some n1 =>
    rw [hf1] at hf
    cases hf2 : ns2.find?
        (fun n => !((edges.map (fun e => e.target)).contains n.id)) with
    | none =>
      rw [hf2] at hf
      cases hf
    | some n2 =>
      rw [hf2] at hf
      dsimp only
      have hid : n1.id = n2.id := by
        injection hf
      rw [hid, hgd]

lemma bfsOf_of_computeLayout (g : FlowchartData) (d : LayoutDirection) :
    bfsOf (computeLayout g d) = bfsOf g := by
  by_cases h : g.nodes = []
  · rw [computeLayout_empty d h]
  · have hid := map_id_of_map_skeleton (computeLayout_map_skeleton g d)
    have hse := sanitizedEdges_of_computeLayout g d
    unfold bfsOf
    dsimp only
    rw [hse, hid, inferRoot_congr (sanitizedEdges g) hid]

/-! Washing the second run's level pass through the first run's writes. -/

lemma any_map_gen {α β : Type} (f : α → β) (p : β → Bool) :
    ∀ l : List α, (l.map f).any p = l.any (fun a => p (f a)) := by
  intro l
  induction l with
  | nil => rfl
  | cons a t ih =>
    rw [List.map_cons, List.any_cons, List.any_cons, ih]

lemma any_id_eq {l1 l2 : List FlowchartNode}
    (h : l1.map (fun n => n.id) = l2.map (fun n => n.id)) (x : String) :
    l1.any (fun m => m.id == x) = l2.any (fun m => m.id == x) := by
  have h1 := congrArg (fun l => l.any (fun i => i == x)) h
  dsimp only at h1
  rw [any_map_gen, any_map_gen] at h1
  exact h1

lemma setLevels_map_id (f : String → Nat) (l : List FlowchartNode) :
    (setLevels f l).map (fun n => n.id) = l.map (fun n => n.id) :=
  map_id_of_map_skeleton (setLevels_map_skeleton f l)

lemma applyCoordsAux_map_id (cs : List (Nat × Rat × Rat))
    (l : List FlowchartNode) (p : Nat) :
    (applyCoordsAux cs p l).map (fun n => n.id) = l.map (fun n => n.id) :=
  map_id_of_map_skeleton (applyCoordsAux_map_skeleton cs l p)

lemma setLevels_cons_eq (f : String → Nat) (n : FlowchartNode)
    (rest : List FlowchartNode) :
    setLevels f (n :: rest) =
      (if rest.any (fun m => m.id == n.id) then { n with level := some 0 }
        else { n with level := some (f n.id) }) :: setLevels f rest :=
  rfl

lemma applyCoordsAux_cons_eq (cs : List (Nat × Rat × Rat)) (p : Nat)
    (n : FlowchartNode) (rest : List FlowchartNode) :
    applyCoordsAux cs p (n :: rest) =
      applyAt cs p n :: applyCoordsAux cs (p + 1) rest :=
  rfl

lemma applyAt_id (cs : List (Nat × Rat × Rat)) (p : Nat)
    (n : FlowchartNode) : (applyAt cs p n).id = n.id := by
  unfold applyAt
  cases cs.find? (fun c => c.1 == p) with
  | some c => rfl
  | none => rfl

lemma applyAt_level (cs : List (Nat × Rat × Rat)) (p : Nat)
    (n : FlowchartNode) : (applyAt cs p n).level = n.level := by
  unfold applyAt
  cases cs.find? (fun c => c.1 == p) with
  | some c => rfl
  | none => rfl

lemma setLevels_setLevels (f h : String → Nat) :
    ∀ l : List FlowchartNode, setLevels f (setLevels h l) = setLevels f l := by
  intro l
  induction l with
  | nil => rfl
  | cons n rest ih =>
    rw [setLevels_cons_eq h, setLevels_cons_eq f n rest]
    by_cases hc : rest.any (fun m => m.id == n.id)
    · rw [if_pos hc, if_pos hc, setLevels_cons_eq f]
      have hcond : (setLevels h rest).any
          (fun m => m.id == ({ n with level := some 0 } :
            FlowchartNode).id) = true := by
        show (setLevels h rest).any (fun m => m.id == n.id) = true
        rw [any_id_eq (setLevels_map_id h rest) n.id]
        exact hc
      rw [if_pos hcond, ih]
    · rw [if_neg hc, if_neg hc, setLevels_cons_eq f]
      have hcond : ¬ (setLevels h rest).any
          (fun m => m.id == ({ n with level := some (h n.id) } :
            FlowchartNode).id) = true := by
        show ¬ (setLevels h rest).any (fun m => m.id == n.id) = true
        rw [any_id_eq (setLevels_map_id h rest) n.id]
        exact hc
      rw [if_neg hcond, ih]

lemma setLevels_applyCoordsAux_comm (f : String → Nat)
    (cs : List (Nat × Rat × Rat)) :
    ∀ (l : List FlowchartNode) (p : Nat),
      setLevels f (applyCoordsAux cs p l) =
        applyCoordsAux cs p (setLevels f l) := by
  intro l
  induction l with
  | nil => intro p; rfl
  | cons n rest ih =>
    intro p
    rw [applyCoordsAux_cons_eq, setLevels_cons_eq f n rest,
      applyCoordsAux_cons_eq, setLevels_cons_eq f]
    have hcond : (applyCoordsAux cs (p + 1) rest).any
        (fun m => m.id == (applyAt cs p n).id) =
        rest.any (fun m => m.id == n.id) := by
      rw [applyAt_id]
      exact any_id_eq (applyCoordsAux_map_id cs rest (p + 1)) n.id
    rw [hcond, ih (p + 1)]
    by_cases hc : rest.any (fun m => m.id == n.id)
    · rw [if_pos hc, if_pos hc]
      show _ :: _ = _ :: _
      congr 1
      unfold applyAt
      cases cs.find? (fun c => c.1 == p) with
      | some c => rfl
      | none => rfl
    · rw [if_neg hc, if_neg hc]
      show _ :: _ = _ :: _
      congr 1
      unfold applyAt
      cases cs.find? (fun c => c.1 == p) with
      | some c => rfl
      | none => rfl

lemma withPositions_applyCoordsAux (cs : List (Nat × Rat × Rat)) :
    ∀ (l : List FlowchartNode) (k : Nat),
      withPositions k (applyCoordsAux cs k l) =
        (withPositions k l).map (fun x => (applyAt cs x.2 x.1, x.2)) := by
  intro l
  induction l with
  | nil => intro k; rfl
  | cons n rest ih =>
    intro k
    rw [applyCoordsAux_cons_eq]
    show (applyAt cs k n, k) ::
        withPositions (k + 1) (applyCoordsAux cs (k + 1) rest) = _
    rw [ih (k + 1)]
    rfl

/-! The sort and the coordinate strategies see the same keys after the
first run's coordinate writes. -/

lemma nodeBefore_congr {a b a' b' : FlowchartNode}
    (ha1 : a'.id = a.id) (ha2 : a'.level = a.level)
    (hb1 : b'.id = b.id) (hb2 : b'.level = b.level) :
    nodeBefore a' b' = nodeBefore a b := by
  unfold nodeBefore getLevel
  rw [ha1, ha2, hb1, hb2]

lemma insertNode_map_comm (F : FlowchartNode × Nat → FlowchartNode × Nat)
    (hF : ∀ x, (F x).1.id = x.1.id ∧ (F x).1.level = x.1.level)
    (x : FlowchartNode × Nat) :
    ∀ l, insertNode (F x) (l.map F) = (insertNode x l).map F := by
  intro l
  induction l with
  | nil => rfl
  | cons y ys ih =>
    rw [List.map_cons]
    show (if nodeBefore (F x).1 (F y).1 then _ else _) =
      (insertNode x (y :: ys)).map F
    rw [nodeBefore_congr (hF x).1 (hF x).2 (hF y).1 (hF y).2]
    show _ = (if nodeBefore x.1 y.1 then x :: y :: ys
      else y :: insertNode x ys).map F
    by_cases h : nodeBefore x.1 y.1
    · rw [if_pos h, if_pos h, List.map_cons, List.map_cons]
    · rw [if_neg h, if_neg h, List.map_cons, ih]

lemma sortNodes_map_comm (F : FlowchartNode × Nat → FlowchartNode × Nat)
    (hF : ∀ x, (F x).1.id = x.1.id ∧ (F x).1.level = x.1.level) :
    ∀ (l acc : List (FlowchartNode × Nat)),
      (l.map F).foldl (fun a x => insertNode x a) (acc.map F) =
        (l.foldl (fun a x => insertNode x a) acc).map F := by
  intro l
  induction l with
  | nil => intro acc; rfl
  | cons x xs ih =>
    intro acc
    rw [List.map_cons]
    show (xs.map F).foldl (fun a x => insertNode x a)
        (insertNode (F x) (acc.map F)) = _
    rw [insertNode_map_comm F hF x acc]
    exact ih (insertNode x acc)

lemma sortNodes_map (F : FlowchartNode × Nat → FlowchartNode × Nat)
    (hF : ∀ x, (F x).1.id = x.1.id ∧ (F x).1.level = x.1.level)
    (l : List (FlowchartNode × Nat)) :
    sortNodes (l.map F) = (sortNodes l).map F :=
  sortNodes_map_comm F hF l []

lemma snakeCoords_eq_of_map_snd :
    ∀ {l1 l2 : List (FlowchartNode × Nat)},
      l1.map Prod.snd = l2.map Prod.snd →
      ∀ k, snakeCoords k l1 = snakeCoords k l2 := by
  intro l1
  induction l1 with
  | nil =>
    intro l2 h k
    rw [List.map_eq_nil_iff.mp h.symm]
  | cons x1 t1 ih =>
    intro l2 h k
    cases l2 with
    | nil =>
      rw [List.map_cons] at h
      exact (List.cons_ne_nil _ _ h).elim
    | cons x2 t2 =>
      obtain ⟨n1, p1⟩ := x1
      obtain ⟨n2, p2⟩ := x2
      rw [List.map_cons, List.map_cons] at h
      injection h with h1 h2
      have h1p : p1 = p2 := h1
      show (p1, snakeX k, snakeY k) :: snakeCoords (k + 1) t1 = _
      rw [h1p, ih h2 (k + 1)]
      rfl

lemma rowCoords_eq_of_map_snd (lvl : Nat) (sx : Rat) :
    ∀ {l1 l2 : List (FlowchartNode × Nat)},
      l1.map Prod.snd = l2.map Prod.snd →
      ∀ k, rowCoords lvl sx k l1 = rowCoords lvl sx k l2 := by
  intro l1
  induction l1 with
  | nil =>
    intro l2 h k
    rw [List.map_eq_nil_iff.mp h.symm]
  | cons x1 t1 ih =>
    intro l2 h k
    cases l2 with
    | nil =>
      rw [List.map_cons] at h
      exact (List.cons_ne_nil _ _ h).elim
    | cons x2 t2 =>
      obtain ⟨n1, p1⟩ := x1
      obtain ⟨n2, p2⟩ := x2
      rw [List.map_cons, List.map_cons] at h
      injection h with h1 h2
      have h1p : p1 = p2 := h1
      show (p1, _, _) :: rowCoords lvl sx (k + 1) t1 = _
      rw [h1p, ih h2 (k + 1)]
      rfl

lemma addToGroups_map (F : FlowchartNode × Nat → FlowchartNode × Nat) :
    ∀ (gs : List (Nat × List (FlowchartNode × Nat))) (lvl : Nat)
      (x : FlowchartNode × Nat),
      addToGroups (gs.map (fun q => (q.1, q.2.map F))) lvl (F x) =
        (addToGroups gs lvl x).map (fun q => (q.1, q.2.map F)) := by
  intro gs
  induction gs with
  | nil => intro lvl x; rfl
  | cons g rest ih =>
    intro lvl x
    obtain ⟨l, ns⟩ := g
    rw [List.map_cons]
    show addToGroups ((l, ns.map F) :: rest.map _) lvl (F x) = _
    unfold addToGroups
    by_cases h : l = lvl
    · rw [if_pos h, if_pos h, List.map_cons, List.map_append]
      rfl
    · rw [if_neg h, if_neg h, List.map_cons, ih]

lemma groupByLevel_map_comm (F : FlowchartNode × Nat → FlowchartNode × Nat)
    (hF : ∀ x, (F x).1.level = x.1.level) :
    ∀ (l acc : List (FlowchartNode × Nat))
      (gacc : List (Nat × List (FlowchartNode × Nat))),
      (l.map F).foldl (fun gs x => addToGroups gs (getLevel x.1) x)
          (gacc.map (fun q => (q.1, q.2.map F))) =
        (l.foldl (fun gs x => addToGroups gs (getLevel x.1) x) gacc).map
          (fun q => (q.1, q.2.map F)) := by
  intro l
  induction l with
  | nil => intro acc gacc; rfl
  | cons x xs ih =>
    intro acc gacc
    rw [List.map_cons]
    show (xs.map F).foldl _
        (addToGroups (gacc.map _) (getLevel (F x).1) (F x)) = _
    have hkey : getLevel (F x).1 = getLevel x.1 := by
      unfold getLevel
      rw [hF x]
    rw [hkey, addToGroups_map F gacc (getLevel x.1) x]
    exact ih acc _

lemma groupByLevel_map (F : FlowchartNode × Nat → FlowchartNode × Nat)
    (hF : ∀ x, (F x).1.level = x.1.level)
    (l : List (FlowchartNode × Nat)) :
    groupByLevel (l.map F) =
      (groupByLevel l).map (fun q => (q.1, q.2.map F)) :=
  groupByLevel_map_comm F hF l l []

lemma maxRowWidthOf_map (F : FlowchartNode × Nat → FlowchartNode × Nat) :
    ∀ (gs : List (Nat × List (FlowchartNode × Nat))) (acc : Rat),
      (gs.map (fun q => (q.1, q.2.map F))).foldl
          (fun m g => max m ((g.2.length : Rat) * (NODE_WIDTH + X_GAP))) acc =
        gs.foldl
          (fun m g => max m ((g.2.length : Rat) * (NODE_WIDTH + X_GAP)))
          acc := by
  intro gs
  induction gs with
  | nil => intro acc; rfl
  | cons g rest ih =>
    intro acc
    rw [List.map_cons]
    show (rest.map _).foldl _
        (max acc (((g.2.map F).length : Rat) * (NODE_WIDTH + X_GAP))) = _
    rw [List.length_map]
    exact ih _

lemma map_snd_of_preserve (F : FlowchartNode × Nat → FlowchartNode × Nat)
    (hsnd : ∀ x, (F x).2 = x.2) :
    ∀ l : List (FlowchartNode × Nat),
      (l.map F).map Prod.snd = l.map Prod.snd := by
  intro l
  induction l with
  | nil => rfl
  | cons x t ih =>
    rw [List.map_cons, List.map_cons, List.map_cons, ih]
    show (F x).2 :: _ = _
    rw [hsnd x]

lemma hierCoords_map (F : FlowchartNode × Nat → FlowchartNode × Nat)
    (hsnd : ∀ x, (F x).2 = x.2) (w : Rat) :
    ∀ gs : List (Nat × List (FlowchartNode × Nat)),
      hierCoords w (gs.map (fun q => (q.1, q.2.map F))) = hierCoords w gs := by
  intro gs
  induction gs with
  | nil => rfl
  | cons g rest ih =>
    obtain ⟨lvl, ns⟩ := g
    rw [List.map_cons]
    show rowCoords lvl ((w - rowWidth (ns.map F).length) / 2 + CANVAS_PADDING)
        0 (ns.map F) ++ hierCoords w (rest.map _) = _
    rw [List.length_map, ih,
      rowCoords_eq_of_map_snd lvl _ (map_snd_of_preserve F hsnd ns) 0]
    rfl

/-! Re-applying coordinates overwrites the previous run's coordinates. -/

lemma applyAt_applyAt (C2 C1 : List (Nat × Rat × Rat)) (k : Nat)
    (n : FlowchartNode) (h : (C2.find? (fun c => c.1 == k)).isSome) :
    applyAt C2 k (applyAt C1 k n) = applyAt C2 k n := by
  cases hf : C2.find? (fun c => c.1 == k) with
  | none =>
    rw [hf] at h
    cases h
  | some c =>
    simp only [applyAt, hf]
    cases C1.find? (fun c => c.1 == k) with
    | some c1 => rfl
    | none => rfl

lemma applyCoordsAux_applyCoordsAux (C2 C1 : List (Nat × Rat × Rat)) :
    ∀ (l : List FlowchartNode) (k : Nat),
      (∀ i, i < l.length → (C2.find? (fun c => c.1 == k + i)).isSome) →
      applyCoordsAux C2 k (applyCoordsAux C1 k l) =
        applyCoordsAux C2 k l := by
  intro l
  induction l with
  | nil => intro k _; rfl
  | cons n rest ih =>
    intro k hcov
    rw [applyCoordsAux_cons_eq C1, applyCoordsAux_cons_eq C2,
      applyCoordsAux_cons_eq C2]
    have h0 := hcov 0 (Nat.succ_pos _)
    rw [Nat.add_zero] at h0
    rw [applyAt_applyAt C2 C1 k n h0]
    rw [ih (k + 1) (fun i hi => by
      have hh := hcov (i + 1) (Nat.succ_lt_succ hi)
      rwa [show k + (i + 1) = k + 1 + i from by omega] at hh)]

lemma leveledNodes_of_computeLayout (g : FlowchartData) (d : LayoutDirection)
    (h : g.nodes ≠ []) :
    leveledNodes (computeLayout g d) =
      applyCoordsAux (layoutCoords g d) 0 (leveledNodes g) := by
  unfold leveledNodes
  rw [bfsOf_of_computeLayout g d,
    show (computeLayout g d).nodes =
        applyCoords (layoutCoords g d) (leveledNodes g) from by
      rw [computeLayout_of_ne d h]]
  show setLevels _ (applyCoordsAux _ 0 (setLevels _ g.nodes)) = _
  rw [setLevels_applyCoordsAux_comm, setLevels_setLevels]

lemma sortedSeq_of_computeLayout (g : FlowchartData) (d : LayoutDirection)
    (h : g.nodes ≠ []) :
    sortedSeq (computeLayout g d) =
      (sortedSeq g).map
        (fun x => (applyAt (layoutCoords g d) x.2 x.1, x.2)) := by
  unfold sortedSeq
  rw [leveledNodes_of_computeLayout g d h, withPositions_applyCoordsAux]
  exact sortNodes_map _
    (fun x => ⟨applyAt_id _ _ _, applyAt_level _ _ _⟩) _

lemma layoutCoords_of_computeLayout (g : FlowchartData)
    (d1 d2 : LayoutDirection) (h : g.nodes ≠ []) :
    layoutCoords (computeLayout g d1) d2 = layoutCoords g d2 := by
  have hs := sortedSeq_of_computeLayout g d1 h
  have hsnd : ∀ x : FlowchartNode × Nat,
      ((fun x => (applyAt (layoutCoords g d1) x.2 x.1, x.2)) x).2 = x.2 :=
    fun x => rfl
  have hlev : ∀ x : FlowchartNode × Nat,
      ((fun x => (applyAt (layoutCoords g d1) x.2 x.1, x.2)) x).1.level =
        x.1.level :=
    fun x => applyAt_level _ _ _
  cases d2 with
  | zigZag =>
    show snakeCoords 0 (sortedSeq (computeLayout g d1)) =
      snakeCoords 0 (sortedSeq g)
    rw [hs]
    exact snakeCoords_eq_of_map_snd (map_snd_of_preserve _ hsnd _) 0
  | topBottom =>
    show hierCoords _ (groupByLevel (sortedSeq (computeLayout g d1))) = _
    rw [hs, groupByLevel_map _ hlev]
    have hw : maxRowWidthOf ((groupByLevel (sortedSeq g)).map
        (fun q => (q.1, q.2.map
          (fun x => (applyAt (layoutCoords g d1) x.2 x.1, x.2))))) =
        maxRowWidthOf (groupByLevel (sortedSeq g)) :=
      maxRowWidthOf_map _ _ 0
    rw [hw, hierCoords_map _ hsnd]
    rfl

lemma computeLayout_twice (g : FlowchartData) (d1 d2 : LayoutDirection) :
    computeLayout (computeLayout g d1) d2 = computeLayout g d2 := by
  by_cases h : g.nodes = []
  · rw [computeLayout_empty d1 h]
  · have hne' : (computeLayout g d1).nodes ≠ [] := by
      intro hx
      have hlen := congrArg List.length (computeLayout_map_skeleton g d1)
      rw [List.length_map, List.length_map, hx] at hlen
      exact h (List.length_eq_zero.mp hlen.symm)
    rw [computeLayout_of_ne d2 hne', computeLayout_of_ne d2 h]
    have hcov : ∀ i, i < (leveledNodes g).length →
        ((layoutCoords g d2).find? (fun c => c.1 == 0 + i)).isSome := by
      intro i hi
      rw [Nat.zero_add]
      exact find?_key_isSome (layoutCoords_covers g d2 hi)
    congr 1
    · rw [layoutCoords_of_computeLayout g d1 d2 h,
        leveledNodes_of_computeLayout g d1 h]
      exact applyCoordsAux_applyCoordsAux (layoutCoords g d2)
        (layoutCoords g d1) (leveledNodes g) 0 hcov
    · exact sanitizedEdges_of_computeLayout g d1

/-- C6.  Layout determinism and direction round-trip: the same graph and
direction always give the same coordinates; re-running the layout on its own
output with the same direction reproduces it; and any sequence of direction
switches ending in `d` lands on exactly `computeLayout g d`. -/
theorem layout_determinism_and_round_trip (g : FlowchartData)
    (d d' : LayoutDirection) :
    computeLayout g d = computeLayout g d ∧
    computeLayout (computeLayout g d) d = computeLayout g d ∧
    computeLayout (computeLayout (computeLayout g d) d') d =
      computeLayout g d :=
  ⟨rfl, computeLayout_twice g d d,
    by rw [computeLayout_twice g d d', computeLayout_twice g d' d]⟩
